import Mathlib

/-!
# Process: shape ownership, normalisation and cloning

A shallow embedding of `CombineTools/src/Process.cc` (namespace `ch`).

* `double` values are exact rationals (`ℚ`).
* Histogram objects live in a `Heap`; a `std::unique_ptr<TH1>` is an `Option Ptr`
  (`none` is `nullptr`).  Member functions of `Process` take the heap and the
  receiver and return the new heap and receiver.
* A call that C++ leaves undefined (a call through a null pointer, an access to
  an object that was deleted), a quotient by zero, which exact arithmetic does
  not have, and a thrown `std::runtime_error` are the errors of `Except Error`.
  A result `.ok` says that none of them happened.
* What `std::unique_ptr` guarantees is a hypothesis of the theorems: the
  process owns a live histogram or none (`Process.owns`), a histogram handed to
  `set_shape` is live (`H.get? ptr = some h`) and is not the one the process
  already owns (`p.shape_ ≠ some ptr`).
* A `const` member function returns the new heap and its result; the receiver
  is a value it cannot change, and its stored shape is read from the new heap.
* `swap` exchanges the members of two process values.  The by-value parameter
  of `operator=` is a temporary object: it is constructed by the copy or the
  move constructor, swapped with the left-hand side and destroyed.
* The external dataset behind `data_` and the accessor `no_norm_rate()` are
  parameters.
* A client program is a list of `Op` run on a `World`: the heap, the processes
  and the histograms the client owns.
-/

namespace ch

/-! ## The histogram capability -/

/-- Modelled from the spec: the concrete representation of a ROOT histogram.
`TH1` is declared outside `src/`; section 6 of the specification names exactly
two supported concrete kinds (single and double precision bin storage), every
other kind is `other`. -/
inductive TH1Kind where
  | TH1F
  | TH1D
  | other
deriving DecidableEq

/-- Modelled from the spec: the density-histogram capability of section 6, for
the ROOT class `TH1`, which is declared outside `src/`.  A histogram has bin
contents indexed `0..N-1`, the container (directory) that holds it, if any,
and a concrete kind. -/
structure TH1 where
  kind : TH1Kind
  directory : Option Nat
  bins : List ℚ
deriving DecidableEq

namespace TH1

/-- Modelled from the spec: `integral()` returns the sum of the bin contents. -/
def Integral (h : TH1) : ℚ := h.bins.sum

/-- Modelled from the spec: `scale(factor)` multiplies all bins by the factor. -/
def Scale (h : TH1) (c1 : ℚ) : TH1 :=
  { h with bins := h.bins.map (fun x => c1 * x) }

/-- Modelled from the spec: `detach()` is `SetDirectory(0)`; in general the
histogram is handed to the container `dir`. -/
def SetDirectory (h : TH1) (dir : Option Nat) : TH1 :=
  { h with directory := dir }

/-- Modelled from the spec: the number of bins `N`. -/
def GetNbinsX (h : TH1) : Nat := h.bins.length

/-- Modelled from the spec: bin-content read, indexed `0..N-1`. -/
def GetBinContent (h : TH1) (i : Nat) : ℚ := h.bins.getD i 0

/-- Modelled from the spec: bin-content write, indexed `0..N-1`. -/
def SetBinContent (h : TH1) (i : Nat) (content : ℚ) : TH1 :=
  { h with bins := h.bins.set i content }

end TH1

/-! ## Heap of histogram objects and owning pointers -/

/-- Address of a histogram object. -/
abbrev Ptr := Nat

/-- The errors a member function can end in. -/
inductive Error where
  | nullDeref
  | danglingPtr
  | divByZero
  | runtime_error (what : String)
deriving DecidableEq

/-- The histogram objects: cell `a` holds the object at address `a`, or `none`
once that object was deleted.  Addresses are never reused. -/
structure Heap where
  cells : List (Option TH1)
deriving DecidableEq

namespace Heap

/-- The live object at address `a`, if there is one. -/
def get? (H : Heap) (a : Ptr) : Option TH1 := (H.cells.getD a none)

/-- Reading the object at `a`. -/
def read (H : Heap) (a : Ptr) : Except Error TH1 :=
  match H.get? a with
  | some h => .ok h
  | none => .error .danglingPtr

/-- Overwriting the object at `a`. -/
def write (H : Heap) (a : Ptr) (h : TH1) : Heap := ⟨H.cells.set a (some h)⟩

/-- A new object at a fresh address (`new`). -/
def alloc (H : Heap) (h : TH1) : Heap × Ptr := (⟨H.cells ++ [some h]⟩, H.cells.length)

/-- Destroying the object at `a` (`delete`). -/
def free (H : Heap) (a : Ptr) : Except Error Heap :=
  match H.get? a with
  | some _ => .ok ⟨H.cells.set a none⟩
  | none => .error .danglingPtr

end Heap

/-- The quotient `a / b` of two `double` values over exact arithmetic, which
has no quotient by zero. -/
def divide (a b : ℚ) : Except Error ℚ :=
  if b = 0 then .error .divByZero else .ok (a / b)

/-- Call of a const member function through a pointer: `p->f()`. -/
def arrow {α : Type} (H : Heap) (p : Option Ptr) (f : TH1 → α) : Except Error α :=
  match p with
  | none => .error .nullDeref
  | some a => (H.read a).map f

/-- Call of a mutating member function through a pointer: `p->f()`. -/
def arrowMut (H : Heap) (p : Option Ptr) (f : TH1 → TH1) : Except Error Heap :=
  match p with
  | none => .error .nullDeref
  | some a => (H.read a).map (fun h => H.write a (f h))

/-- Assignment to a `std::unique_ptr` holding `old`: the object it owned is
deleted, the heap after that is returned (the slot then holds the new pointer). -/
def resetFrom (H : Heap) (old : Option Ptr) : Except Error Heap :=
  match old with
  | none => .ok H
  | some a => H.free a

/-- Modelled from the spec: `TObject::Clone()` of ROOT, "producing an
independent deep copy": a new object with the contents of the one at `p`. -/
def Clone (H : Heap) (p : Option Ptr) : Except Error (Heap × Option Ptr) :=
  match p with
  | none => .error .nullDeref
  | some a => (H.read a).map (fun h => ((H.alloc h).1, some (H.alloc h).2))

/-! ## The Process entity -/

/-- Modelled from the spec: the metadata base class `ch::Object`, declared
outside `src/`; its fields are the ones printed by `operator<<`. -/
structure Object where
  bin : String
  process : String
  analysis : String
  era : String
  channel : String
  bin_id : Int
  mass : String
deriving DecidableEq

/-- The default-constructed metadata base, `Object()`. -/
def Object.default : Object := ⟨"", "", "", "", "", 0, ""⟩

/-- The data members of `ch::Process`.  `shape_` owns a histogram, `pdf_`,
`data_` and `norm_` are non-owning references to external objects. -/
structure Process where
  base : Object
  rate_ : ℚ
  signal_ : Bool
  shape_ : Option Ptr
  pdf_ : Option Nat
  data_ : Option Nat
  norm_ : Option Nat
deriving DecidableEq

namespace Process

/-- The constructor `Process::Process()`. -/
def default : Process :=
  { base := Object.default, rate_ := 0, signal_ := false, shape_ := none,
    pdf_ := none, data_ := none, norm_ := none }

/-- Modelled from the spec: the inline setter `set_rate` of `Process.h`, which
is not under `src/`: `rate` is overwritten. -/
def set_rate (self : Process) (rate : ℚ) : Process := { self with rate_ := rate }

/-- The histogram stored by a process: the object `shape_` points to. -/
def storedShape (H : Heap) (self : Process) : Option TH1 :=
  match self.shape_ with
  | none => none
  | some a => H.get? a

/-- The process owns a live object, or nothing: what `std::unique_ptr`
guarantees of `shape_`. -/
def owns (H : Heap) (self : Process) : Bool :=
  match self.shape_ with
  | none => true
  | some a => (H.get? a).isSome

/-- The member function `Process::set_shape(std::unique_ptr<TH1> shape, bool set_rate)`. -/
def set_shape (H : Heap) (self : Process) (shape : Option Ptr) (set_rate : Bool) :
    Except Error (Heap × Process) :=
  match shape with
  | none => do
    -- shape_ = nullptr
    let H ← resetFrom H self.shape_
    let self := { self with shape_ := none }
    return (H, self)
  | some _ => do
    -- shape_ = std::move(shape)
    let H ← resetFrom H self.shape_
    let self := { self with shape_ := shape }
    -- shape_->SetDirectory(0)
    let H ← arrowMut H self.shape_ (fun h => h.SetDirectory none)
    let self ← (if set_rate then do
        let integral ← arrow H self.shape_ TH1.Integral
        pure (self.set_rate integral)
      else pure self)
    let integral ← arrow H self.shape_ TH1.Integral
    if integral > 0 then do
      let denom ← arrow H self.shape_ TH1.Integral
      let factor ← divide 1 denom
      let H ← arrowMut H self.shape_ (fun h => h.Scale factor)
      return (H, self)
    else
      return (H, self)


/-- The member function `Process::ClonedShape() const`. -/
def ClonedShape (H : Heap) (self : Process) : Except Error (Heap × Option Ptr) :=
  match self.shape_ with
  | none => return (H, none)
  | some _ => do
    let (H, res) ← Clone H self.shape_
    let H ← arrowMut H res (fun h => h.SetDirectory none)
    return (H, res)

/-- The member function `Process::ClonedScaledShape() const`.  The accessor
`no_norm_rate()` is declared in `Process.h`, outside `src/`, and is a parameter. -/
def ClonedScaledShape (no_norm_rate : Process → ℚ) (H : Heap) (self : Process) :
    Except Error (Heap × Option Ptr) :=
  match self.shape_ with
  | none => return (H, none)
  | some _ => do
    let (H, res) ← self.ClonedShape H
    let H ← arrowMut H res (fun h => h.Scale (no_norm_rate self))
    return (H, res)

/-- The copy constructor `Process::Process(Process const& other)`. -/
def copyCtor (H : Heap) (other : Process) : Except Error (Heap × Process) := do
  let self : Process :=
    { base := other.base, rate_ := other.rate_, signal_ := other.signal_, shape_ := none,
      pdf_ := other.pdf_, data_ := other.data_, norm_ := other.norm_ }
  let (H, h) ← (match other.shape_ with
    | some _ => do
      let (H, h) ← Clone H other.shape_
      let H ← arrowMut H h (fun x => x.SetDirectory none)
      pure (H, h)
    | none => pure (H, none))
  -- shape_ = std::unique_ptr<TH1>(h)
  let H ← resetFrom H self.shape_
  return (H, { self with shape_ := h })

end Process

/-! ## Concrete inputs -/

/-- The histogram `[2, 2, 4]` of the end-to-end scenario, still attached to a
directory. -/
def h224 : TH1 := ⟨.TH1F, some 7, [2, 2, 4]⟩

/-- A heap holding `h224` at address 0. -/
def heap224 : Heap := ⟨[some h224]⟩

/-- A histogram with a negative integral, `[1, -3]`. -/
def hNeg : TH1 := ⟨.TH1F, none, [1, -3]⟩

/-- A heap holding `hNeg` at address 0. -/
def heapNeg : Heap := ⟨[some hNeg]⟩

/-- A histogram all of whose bins are zero. -/
def hZero : TH1 := ⟨.TH1D, some 3, [0, 0, 0]⟩

/-- A heap holding `hZero` at address 0. -/
def heapZero : Heap := ⟨[some hZero]⟩

/-- A process with rate 10 that stores the shape at address 0. -/
def procAt0 : Process := { Process.default with rate_ := 10, shape_ := some 0 }

/-- The normalised histogram `[1/4, 1/4, 1/2]`. -/
def hNorm : TH1 := ⟨.TH1F, none, [1/4, 1/4, 1/2]⟩

/-- A heap holding `hNorm` at address 0. -/
def heapNorm : Heap := ⟨[some hNorm]⟩


/-! ## Swap, move construction and assignment -/

/-- The friend function `swap(Process& first, Process& second)`: the members
are exchanged one by one; for `shape_` the two owning pointers are exchanged,
no histogram is read or written. -/
def swap (first second : Process) : Process × Process :=
  let (first, second) := ({ first with base := second.base }, { second with base := first.base })
  let (first, second) := ({ first with rate_ := second.rate_ }, { second with rate_ := first.rate_ })
  let (first, second) :=
    ({ first with signal_ := second.signal_ }, { second with signal_ := first.signal_ })
  let (first, second) :=
    ({ first with shape_ := second.shape_ }, { second with shape_ := first.shape_ })
  let (first, second) := ({ first with pdf_ := second.pdf_ }, { second with pdf_ := first.pdf_ })
  let (first, second) := ({ first with data_ := second.data_ }, { second with data_ := first.data_ })
  let (first, second) := ({ first with norm_ := second.norm_ }, { second with norm_ := first.norm_ })
  (first, second)

namespace Process

/-- The move constructor `Process::Process(Process&& other)`: the new object
and `other` after the call. -/
def moveCtor (other : Process) : Process × Process :=
  let self : Process :=
    { base := Object.default, rate_ := 0, signal_ := false, shape_ := none,
      pdf_ := none, data_ := none, norm_ := none }
  swap self other

/-- The destructor `Process::~Process()`: its body is empty, the member
`shape_` deletes the histogram it owns. -/
def destroy (H : Heap) (self : Process) : Except Error Heap :=
  resetFrom H self.shape_

/-- The assignment operator `Process::operator=(Process other)`, entered with
the by-value parameter `other` already constructed; the parameter is destroyed
when the call is over. -/
def operatorAssign (H : Heap) (self other : Process) : Except Error (Heap × Process) := do
  let (self, other) := swap self other
  let H ← other.destroy H
  return (H, self)

/-- The statement `self = rhs` for an lvalue `rhs`: the parameter of
`operator=` is copy-constructed from `rhs`.  For `self = self` both arguments
are the one object. -/
def copyAssign (H : Heap) (self rhs : Process) : Except Error (Heap × Process) := do
  let (H, other) ← rhs.copyCtor H
  operatorAssign H self other

/-- The statement `self = std::move(rhs)` for two objects: the parameter of
`operator=` is move-constructed from `rhs`.  The result is the heap, `self` and
`rhs` after the statement. -/
def moveAssign (H : Heap) (self rhs : Process) : Except Error (Heap × Process × Process) := do
  let (other, rhs) := moveCtor rhs
  let (H, self) ← operatorAssign H self other
  return (H, self, rhs)

/-! ## Export as a concrete histogram -/

/-- Modelled from the spec: the inline accessor `shape()` of `Process.h`, which
is not under `src/`: the stored shape as a plain pointer. -/
def shape (self : Process) : Option Ptr := self.shape_

/-- Modelled from the spec: the inline accessor `data()` of `Process.h`, which
is not under `src/`: the dataset reference. -/
def data (self : Process) : Option Nat := self.data_

end Process

/-- Modelled from the spec: the macro `FNERROR` of `Logging.h`, which is not
under `src/`; it puts the name of the function around the message, and that
decoration is left out here. -/
def FNERROR (message : String) : String := message

/-- Modelled from the spec: a default-constructed `TH1F`, without bins and
without a directory. -/
def TH1.TH1F_default : TH1 := ⟨.TH1F, none, []⟩

/-- Modelled from the spec: `Copy(res)` of ROOT, also behind `res = *tmp`: the
bin contents of this histogram are written into `res`, which keeps its own
concrete kind (the export narrows to a `TH1F`). -/
def TH1.Copy (h : TH1) (res : TH1) : TH1 := { res with bins := h.bins }

/-- Modelled from the spec: the external dataset capability of section 6
(`RooAbsData`): the name of the first variable and the histogram built for a
variable. -/
structure RooAbsData where
  primaryVariableName : String
  createHistogram : String → TH1

/-- A call through the dataset reference `data()->...`: the reference points
into the external model domain `datasets`. -/
def derefData (datasets : Nat → Option RooAbsData) (d : Option Nat) : Except Error RooAbsData :=
  match d with
  | none => .error .nullDeref
  | some k =>
    match datasets k with
    | some ds => .ok ds
    | none => .error .danglingPtr

/-- The cast `dynamic_cast<K*>(p)`: `p` itself when the object it points to is
of the concrete kind `k`, null when it is of another kind or `p` is null. -/
def dynamic_cast (H : Heap) (p : Option Ptr) (k : TH1Kind) : Except Error (Option Ptr) :=
  match p with
  | none => .ok none
  | some a => (H.read a).map (fun h => if h.kind = k then some a else none)

/-- The statement `delete p` for a plain pointer; `delete` of null does nothing. -/
def deletePtr (H : Heap) (p : Option Ptr) : Except Error Heap :=
  match p with
  | none => .ok H
  | some a => H.free a

namespace Process

/-- The member function `Process::ShapeAsTH1F() const`.  The result is a
histogram value; the heap is returned because the histogram built by the
dataset is allocated and deleted on the way. -/
def ShapeAsTH1F (datasets : Nat → Option RooAbsData) (H : Heap) (self : Process) :
    Except Error (Heap × TH1) :=
  if self.shape_.isNone && self.data_.isNone then
    .error (.runtime_error (FNERROR "Process object does not contain a shape"))
  else
    let res : TH1 := TH1.TH1F_default
    if self.shape.isSome then do
      let test_f ← dynamic_cast H self.shape .TH1F
      let test_d ← dynamic_cast H self.shape .TH1D
      if test_f.isSome then do
        let res ← arrow H test_f (fun h => h.Copy res)
        return (H, res)
      else if test_d.isSome then do
        let res ← arrow H test_d (fun h => h.Copy res)
        return (H, res)
      else
        .error (.runtime_error (FNERROR "TH1 shape is not a TH1F or a TH1D"))
    else if self.data.isSome then do
      let ds ← derefData datasets self.data
      let var_name := ds.primaryVariableName
      let (H, created) := H.alloc (ds.createHistogram var_name)
      let tmp ← dynamic_cast H (some created) .TH1F
      -- res = *tmp
      let res ← arrow H tmp (fun h => h.Copy res)
      let H ← deletePtr H tmp
      if res.Integral > 0 then do
        let factor ← divide 1 res.Integral
        return (H, res.Scale factor)
      else
        return (H, res)
    else
      return (H, res)

end Process

/-! ## More concrete inputs -/

/-- A heap holding `h224` at address 0 and `hNorm` at address 1. -/
def heapTwo : Heap := ⟨[some h224, some hNorm]⟩

/-- A process with rate 3, flagged as signal, that stores the shape at address 1. -/
def procAt1 : Process :=
  { Process.default with rate_ := 3, signal_ := true, shape_ := some 1, pdf_ := some 5 }

/-- A dataset whose histogram for the first variable `x` is the `TH1F` `[1, 3]`. -/
def dataX : RooAbsData := ⟨"x", fun _ => ⟨.TH1F, some 1, [1, 3]⟩⟩

/-- An external model domain with `dataX` under the reference 0. -/
def datasetsX : Nat → Option RooAbsData := fun k => if k = 0 then some dataX else none

/-- A process without a shape and with the dataset reference 0. -/
def procData : Process := { Process.default with data_ := some 0, pdf_ := some 2 }

/-! ## Programs over several processes -/

/-- The state of a client program: the heap, the `Process` objects in the
order of their construction, and the histograms the client itself owns (the
`std::unique_ptr<TH1>` values it holds). -/
structure World where
  heap : Heap
  procs : List Process
  client : List Ptr
deriving DecidableEq

/-- The operations of a client program. -/
inductive Op where
  | construct
  | destroyLast
  | newHist (h : TH1)
  | SetBinContent (a : Ptr) (i : Nat) (content : ℚ)
  | set_shape (i : Nat) (shape : Option Ptr) (set_rate : Bool)
  | set_rate (i : Nat) (rate : ℚ)
  | copyConstruct (i : Nat)
  | moveConstruct (i : Nat)
  | copyAssign (i j : Nat)
  | moveAssign (i j : Nat)
  | swap (i j : Nat)
  | ClonedShape (i : Nat)
  | ClonedScaledShape (i : Nat)
  | ShapeAsTH1F (i : Nat)

namespace World

/-- The program start: no object at all. -/
def init : World := ⟨⟨[]⟩, [], []⟩

/-- The statement `Process p;`: a default-constructed process is the newest object. -/
def construct (w : World) : Option World :=
  some { w with procs := w.procs ++ [Process.default] }

/-- The newest process goes out of scope: its destructor runs. -/
def destroyLast (w : World) : Option World := do
  let p ← w.procs.getLast?
  let H ← (p.destroy w.heap).toOption
  some { w with heap := H, procs := w.procs.dropLast }

/-- The client makes a histogram `h` of its own. -/
def newHist (w : World) (h : TH1) : Option World :=
  some { w with heap := (w.heap.alloc h).1, client := (w.heap.alloc h).2 :: w.client }

/-- The client writes a bin of a histogram it owns. -/
def SetBinContent (w : World) (a : Ptr) (i : Nat) (content : ℚ) : Option World :=
  if a ∈ w.client then do
    let H ← (arrowMut w.heap (some a) (fun x => x.SetBinContent i content)).toOption
    some { w with heap := H }
  else none

/-- What the client may hand to `set_shape`: null, or a histogram it owns whose
bins are all non-negative. -/
def admissible (w : World) (shape : Option Ptr) : Bool :=
  match shape with
  | none => true
  | some a =>
    decide (a ∈ w.client) &&
      (match w.heap.get? a with
       | some h => h.bins.all (fun x => decide (0 ≤ x))
       | none => false)

/-- The call `procs[i].set_shape(std::move(shape), set_rate)`: the client gives
the histogram away. -/
def set_shape (w : World) (i : Nat) (shape : Option Ptr) (set_rate : Bool) : Option World := do
  let p ← w.procs[i]?
  if w.admissible shape then do
    let (H, p') ← (p.set_shape w.heap shape set_rate).toOption
    some { heap := H, procs := w.procs.set i p',
           client := w.client.filter (fun b => decide (shape ≠ some b)) }
  else none

/-- The call `procs[i].set_rate(rate)`. -/
def set_rate (w : World) (i : Nat) (rate : ℚ) : Option World := do
  let p ← w.procs[i]?
  some { w with procs := w.procs.set i (p.set_rate rate) }

/-- The statement `Process q(procs[i]);`: the copy is the newest object. -/
def copyConstruct (w : World) (i : Nat) : Option World := do
  let p ← w.procs[i]?
  let (H, q) ← (p.copyCtor w.heap).toOption
  some { w with heap := H, procs := w.procs ++ [q] }

/-- The call `swap(procs[i], procs[j])`. -/
def swap (w : World) (i j : Nat) : Option World := do
  let first ← w.procs[i]?
  let second ← w.procs[j]?
  let (first, second) := ch.swap first second
  some { w with procs := (w.procs.set i first).set j second }

/-- The statement `Process q(std::move(procs[i]));`, the move constructor: the
new object is default-initialised and then swapped with `procs[i]`. -/
def moveConstruct (w : World) (i : Nat) : Option World := do
  let w1 ← w.construct
  w1.swap w.procs.length i

/-- The statement `procs[i] = procs[j];`: the parameter `other` of `operator=`
is copy-constructed from `procs[j]`, the body swaps `procs[i]` with it, and it
is destroyed when the call is over. -/
def copyAssign (w : World) (i j : Nat) : Option World := do
  let w1 ← w.copyConstruct j
  let w2 ← w1.swap i w.procs.length
  w2.destroyLast

/-- The statement `procs[i] = std::move(procs[j]);`: as `copyAssign`, with the
parameter move-constructed. -/
def moveAssign (w : World) (i j : Nat) : Option World := do
  let w1 ← w.moveConstruct j
  let w2 ← w1.swap i w.procs.length
  w2.destroyLast

/-- The call `procs[i].ClonedShape()`: the client owns the result. -/
def ClonedShape (w : World) (i : Nat) : Option World := do
  let p ← w.procs[i]?
  let (H, res) ← (p.ClonedShape w.heap).toOption
  some { w with heap := H, client := res.toList ++ w.client }

/-- The call `procs[i].ClonedScaledShape()`: the client owns the result. -/
def ClonedScaledShape (no_norm_rate : Process → ℚ) (w : World) (i : Nat) : Option World := do
  let p ← w.procs[i]?
  let (H, res) ← (p.ClonedScaledShape no_norm_rate w.heap).toOption
  some { w with heap := H, client := res.toList ++ w.client }

/-- The call `procs[i].ShapeAsTH1F()`; the result is a value of the client. -/
def ShapeAsTH1F (datasets : Nat → Option RooAbsData) (w : World) (i : Nat) : Option World := do
  let p ← w.procs[i]?
  let (H, _) ← (p.ShapeAsTH1F datasets w.heap).toOption
  some { w with heap := H }

/-- One operation of the client program; `none` when the operation is not
possible (no such object, a histogram the client does not own) or ends in an
error. -/
def step (no_norm_rate : Process → ℚ) (datasets : Nat → Option RooAbsData) (w : World) :
    Op → Option World
  | .construct => w.construct
  | .destroyLast => w.destroyLast
  | .newHist h => w.newHist h
  | .SetBinContent a i content => w.SetBinContent a i content
  | .set_shape i shape set_rate => w.set_shape i shape set_rate
  | .set_rate i rate => w.set_rate i rate
  | .copyConstruct i => w.copyConstruct i
  | .moveConstruct i => w.moveConstruct i
  | .copyAssign i j => w.copyAssign i j
  | .moveAssign i j => w.moveAssign i j
  | .swap i j => w.swap i j
  | .ClonedShape i => w.ClonedShape i
  | .ClonedScaledShape i => w.ClonedScaledShape no_norm_rate i
  | .ShapeAsTH1F i => w.ShapeAsTH1F datasets i

/-- A sequence of operations, from the left. -/
def run (no_norm_rate : Process → ℚ) (datasets : Nat → Option RooAbsData) (w : World) :
    List Op → Option World
  | [] => some w
  | op :: ops => (step no_norm_rate datasets w op).bind (fun w1 => run no_norm_rate datasets w1 ops)

end World

/-- The invariant of a client program, for a property `P` of the bin contents
of the histogram at an address: every process owns nothing or a live histogram
whose bins have `P`, no two processes own the same histogram, and the
histograms of the client are live and owned by no process. -/
structure World.WF (P : Ptr → List ℚ → Prop) (w : World) : Prop where
  live : ∀ (i : Nat) (p : Process) (a : Ptr), w.procs[i]? = some p → p.shape_ = some a →
    ∃ s, w.heap.get? a = some s ∧ P a s.bins
  uniq : ∀ (i j : Nat) (p q : Process) (a : Ptr), w.procs[i]? = some p →
    w.procs[j]? = some q → p.shape_ = some a → q.shape_ = some a → i = j
  clientLive : ∀ a : Ptr, a ∈ w.client → ∃ s, w.heap.get? a = some s
  clientSep : ∀ a : Ptr, a ∈ w.client → ∀ (i : Nat) (p : Process),
    w.procs[i]? = some p → p.shape_ ≠ some a

/-- The bins of a normalised shape: they sum to 1, or they are all zero. -/
def unitOrZero (bins : List ℚ) : Prop := bins.sum = 1 ∨ ∀ x ∈ bins, x = 0

/-- A client program: two processes, a shape set from `[2, 2, 4]`, copies,
clones, assignments, a swap and an export. -/
def program : List Op :=
  [.construct, .newHist h224, .set_shape 0 (some 0) true, .copyConstruct 0,
   .ClonedScaledShape 1, .moveConstruct 0, .copyAssign 0 1, .moveAssign 1 2, .swap 0 1,
   .ShapeAsTH1F 0, .set_rate 0 3, .ClonedShape 0, .SetBinContent 4 0 7, .destroyLast]

/-- The state `program` ends in. -/
def programEnd : World :=
  { heap := ⟨[some ⟨.TH1F, none, [1/4, 1/4, 1/2]⟩, none, some ⟨.TH1F, none, [2, 2, 4]⟩,
              some ⟨.TH1F, none, [1/4, 1/4, 1/2]⟩, some ⟨.TH1F, none, [7, 1/4, 1/2]⟩]⟩,
    procs := [{ Process.default with rate_ := 3, shape_ := some 0 },
              { Process.default with rate_ := 8, shape_ := some 3 }],
    client := [4, 2] }
end ch

namespace ch
open Process

/-! ## Lemmas on histograms and the heap -/

theorem TH1.Integral_Scale (h : TH1) (c : ℚ) : (h.Scale c).Integral = c * h.Integral := by
  have hsum := List.sum_map_mul_left h.bins id c
  simpa [TH1.Scale, TH1.Integral] using hsum

theorem TH1.GetBinContent_Scale (h : TH1) (c : ℚ) (i : Nat) :
    (h.Scale c).GetBinContent i = c * h.GetBinContent i := by
  simp only [TH1.Scale, TH1.GetBinContent, List.getD_eq_getElem?_getD, List.getElem?_map]
  cases h.bins[i]? <;> simp

theorem TH1.GetNbinsX_Scale (h : TH1) (c : ℚ) : (h.Scale c).GetNbinsX = h.GetNbinsX := by
  simp [TH1.Scale, TH1.GetNbinsX]

theorem Heap.get?_write_same (H : Heap) (a : Ptr) (x h : TH1) (hx : H.get? a = some x) :
    (H.write a h).get? a = some h := by
  unfold Heap.get? Heap.write at *
  rw [List.getD_eq_getElem?_getD] at *
  have hlt : a < H.cells.length := by
    by_contra hc
    have hn : H.cells[a]? = none := List.getElem?_eq_none (not_lt.mp hc)
    rw [hn] at hx
    simp at hx
  simp [List.getElem?_set, hlt]

theorem Heap.get?_write_other (H : Heap) (a b : Ptr) (h : TH1) (hab : b ≠ a) :
    (H.write a h).get? b = H.get? b := by
  unfold Heap.get? Heap.write
  rw [List.getD_eq_getElem?_getD, List.getD_eq_getElem?_getD, List.getElem?_set_ne (Ne.symm hab)]

theorem resetFrom_ok (H : Heap) (p : Process) (hp : p.owns H = true) :
    ∃ H1, resetFrom H p.shape_ = .ok H1 ∧ (∀ b, p.shape_ ≠ some b → H1.get? b = H.get? b) ∧
      ∀ b, p.shape_ = some b → H1.get? b = none := by
  unfold owns at hp
  unfold resetFrom
  cases hs : p.shape_ with
  | none => exact ⟨H, rfl, fun _ _ => rfl, fun _ hb => by simp at hb⟩
  | some a =>
    rw [hs] at hp
    simp only at hp
    obtain ⟨x, hx⟩ := Option.isSome_iff_exists.mp hp
    refine ⟨⟨H.cells.set a none⟩, ?_, ?_, ?_⟩
    · simp [Heap.free, hx]
    · intro b hb
      have hab : a ≠ b := fun h => hb (by rw [h])
      unfold Heap.get?
      rw [List.getD_eq_getElem?_getD, List.getD_eq_getElem?_getD, List.getElem?_set_ne hab]
    · intro b hb
      have hab : a = b := by simpa using hb
      subst hab
      unfold Heap.get? at *
      rw [List.getD_eq_getElem?_getD] at *
      by_cases hlt : a < H.cells.length
      · simp [List.getElem?_set, hlt]
      · have hn : H.cells[a]? = none := List.getElem?_eq_none (not_lt.mp hlt)
        rw [hn] at hx
        simp at hx

theorem arrow_some (H : Heap) (a : Ptr) (h : TH1) {α : Type} (f : TH1 → α)
    (hh : H.get? a = some h) : arrow H (some a) f = .ok (f h) := by
  simp [arrow, Heap.read, hh, Except.map]

theorem arrowMut_some (H : Heap) (a : Ptr) (h : TH1) (f : TH1 → TH1)
    (hh : H.get? a = some h) : arrowMut H (some a) f = .ok (H.write a (f h)) := by
  simp [arrowMut, Heap.read, hh, Except.map]

/-- What `set_shape` does with a histogram `h` handed over through `ptr`. -/
theorem set_shape_some (H : Heap) (p : Process) (ptr : Ptr) (h : TH1) (set_rate : Bool)
    (hp : p.owns H = true) (hh : H.get? ptr = some h) (hne : p.shape_ ≠ some ptr) :
    ∃ H', p.set_shape H (some ptr) set_rate
        = .ok (H', { p with shape_ := some ptr,
                            rate_ := if set_rate then h.Integral else p.rate_ }) ∧
      H'.get? ptr = some (if 0 < h.Integral then (h.SetDirectory none).Scale (1 / h.Integral)
                          else h.SetDirectory none) ∧
      ∀ b, b ≠ ptr → p.shape_ ≠ some b → H'.get? b = H.get? b := by
  obtain ⟨H1, hreset, hframe, -⟩ := resetFrom_ok H p hp
  have h1 : H1.get? ptr = some h := by rw [hframe ptr hne, hh]
  have h2 : (H1.write ptr (h.SetDirectory none)).get? ptr = some (h.SetDirectory none) :=
    Heap.get?_write_same H1 ptr h _ h1
  have hI : (h.SetDirectory none).Integral = h.Integral := rfl
  unfold set_shape
  simp only [hreset, bind, Except.bind, arrowMut_some H1 ptr h _ h1, pure, Except.pure]
  have hz : 0 < h.Integral → ¬ h.Integral = 0 := fun hpos => ne_of_gt hpos
  cases set_rate <;> by_cases hpos : 0 < h.Integral
  all_goals simp [arrow_some _ ptr _ _ h2, hI, hpos, arrowMut_some _ ptr _ _ h2, set_rate,
    bind, Except.bind, pure, Except.pure, divide, hz]
  · exact ⟨Heap.get?_write_same _ ptr _ _ h2, fun b hb hpb => by
      rw [Heap.get?_write_other _ _ _ _ hb, Heap.get?_write_other _ _ _ _ hb, hframe b hpb]⟩
  · exact ⟨h2, fun b hb hpb => by rw [Heap.get?_write_other _ _ _ _ hb, hframe b hpb]⟩
  · exact ⟨Heap.get?_write_same _ ptr _ _ h2, fun b hb hpb => by
      rw [Heap.get?_write_other _ _ _ _ hb, Heap.get?_write_other _ _ _ _ hb, hframe b hpb]⟩
  · exact ⟨h2, fun b hb hpb => by rw [Heap.get?_write_other _ _ _ _ hb, hframe b hpb]⟩

theorem Heap.lt_of_get? (H : Heap) (a : Ptr) (x : TH1) (hx : H.get? a = some x) :
    a < H.cells.length := by
  unfold Heap.get? at hx
  rw [List.getD_eq_getElem?_getD] at hx
  by_contra hc
  have hn : H.cells[a]? = none := List.getElem?_eq_none (not_lt.mp hc)
  rw [hn] at hx
  simp at hx

theorem Heap.get?_alloc_fresh (H : Heap) (h : TH1) :
    (H.alloc h).1.get? (H.alloc h).2 = some h := by
  simp [Heap.alloc, Heap.get?, List.getD_eq_getElem?_getD]

theorem Heap.get?_alloc_other (H : Heap) (h : TH1) (b : Ptr) (hb : b ≠ (H.alloc h).2) :
    (H.alloc h).1.get? b = H.get? b := by
  simp only [Heap.alloc, Heap.get?, List.getD_eq_getElem?_getD] at *
  rcases Nat.lt_or_gt_of_ne hb with hlt | hgt
  · rw [List.getElem?_append_left hlt]
  · rw [List.getElem?_eq_none (by simp; omega), List.getElem?_eq_none (by omega)]

/-- What `ClonedShape` does for a process that stores the histogram `h`. -/
theorem ClonedShape_some (H : Heap) (a : Process) (q : Ptr) (h : TH1)
    (hs : a.shape_ = some q) (hh : H.get? q = some h) :
    ∃ H', a.ClonedShape H = .ok (H', some H.cells.length) ∧
      H'.get? H.cells.length = some (h.SetDirectory none) ∧
      (∀ b, b ≠ H.cells.length → H'.get? b = H.get? b) ∧ q ≠ H.cells.length := by
  have hfresh : (H.alloc h).1.get? H.cells.length = some h := Heap.get?_alloc_fresh H h
  refine ⟨(H.alloc h).1.write H.cells.length (h.SetDirectory none), ?_,
    Heap.get?_write_same _ _ h _ hfresh, ?_, Nat.ne_of_lt (Heap.lt_of_get? H q h hh)⟩
  · unfold ClonedShape
    simp only [hs, Clone, Heap.read, hh, Except.map, bind, Except.bind]
    rw [show (H.alloc h).2 = H.cells.length from rfl, arrowMut_some _ _ h _ hfresh]
    rfl
  · intro b hb
    rw [Heap.get?_write_other _ _ _ _ hb, Heap.get?_alloc_other H h b hb]

end ch
namespace ch
open Process

/-! ## Claims on `set_shape` -/

/-- C1: a histogram `h` with strictly positive integral, handed to `set_shape`
with either value of `set_rate`, is stored (the shape is non-null) and the
stored shape integrates to exactly 1. -/
theorem set_shape_integral_one (H : Heap) (p : Process) (ptr : Ptr) (h : TH1)
    (set_rate : Bool) (hp : p.owns H = true) (hh : H.get? ptr = some h)
    (hne : p.shape_ ≠ some ptr) (hpos : 0 < h.Integral) :
    ∃ H' p', p.set_shape H (some ptr) set_rate = .ok (H', p') ∧ p'.shape_ ≠ none ∧
      ∃ s, p'.storedShape H' = some s ∧ s.Integral = 1 := by
  obtain ⟨H', hrun, hget, -⟩ := set_shape_some H p ptr h set_rate hp hh hne
  refine ⟨H', _, hrun, by simp, (h.SetDirectory none).Scale (1 / h.Integral), ?_, ?_⟩
  · simpa [storedShape, hpos] using hget
  · rw [TH1.Integral_Scale]
    exact one_div_mul_cancel (ne_of_gt hpos)

/-- Witness of C1 at the histogram `[2, 2, 4]` and a default-constructed process. -/
theorem set_shape_integral_one_witness :
    (Process.default.owns heap224 = true ∧ heap224.get? 0 = some h224 ∧
     Process.default.shape_ ≠ some 0 ∧ 0 < h224.Integral) ∧
    ∃ H' p', Process.default.set_shape heap224 (some 0) true = .ok (H', p') ∧
      p'.shape_ ≠ none ∧ ∃ s, p'.storedShape H' = some s ∧ s.Integral = 1 :=
  ⟨⟨by decide, by rfl, by decide, by norm_num [TH1.Integral, h224]⟩,
   set_shape_integral_one heap224 Process.default 0 h224 true (by decide) (by rfl) (by decide)
     (by norm_num [TH1.Integral, h224])⟩

/-- C2: a histogram `h` with strictly positive integral `S` is stored with the
same number of bins, bin `i` being `h[i] / S`. -/
theorem set_shape_bins (H : Heap) (p : Process) (ptr : Ptr) (h : TH1)
    (set_rate : Bool) (hp : p.owns H = true) (hh : H.get? ptr = some h)
    (hne : p.shape_ ≠ some ptr) (hpos : 0 < h.Integral) :
    ∃ H' p' s, p.set_shape H (some ptr) set_rate = .ok (H', p') ∧
      p'.storedShape H' = some s ∧ s.GetNbinsX = h.GetNbinsX ∧
      (∀ i, i < h.GetNbinsX → s.GetBinContent i = h.GetBinContent i / h.Integral) ∧
      s.bins = h.bins.map (fun x => x / h.Integral) := by
  obtain ⟨H', hrun, hget, -⟩ := set_shape_some H p ptr h set_rate hp hh hne
  refine ⟨H', _, (h.SetDirectory none).Scale (1 / h.Integral), hrun, ?_, ?_, ?_, ?_⟩
  · simpa [storedShape, hpos] using hget
  · rw [TH1.GetNbinsX_Scale]; rfl
  · intro i _
    rw [TH1.GetBinContent_Scale]
    show 1 / h.Integral * h.GetBinContent i = h.GetBinContent i / h.Integral
    ring
  · show h.bins.map (fun x => 1 / h.Integral * x) = h.bins.map (fun x => x / h.Integral)
    apply List.map_congr_left
    intro x _
    ring

/-- Witness of C2: `[2, 2, 4]` with `set_rate = false` on a default-constructed
process gives the stored shape `[1/4, 1/4, 1/2]`. -/
theorem set_shape_bins_witness :
    (Process.default.owns heap224 = true ∧ heap224.get? 0 = some h224 ∧
     Process.default.shape_ ≠ some 0 ∧ 0 < h224.Integral) ∧
    (∃ H' p' s, Process.default.set_shape heap224 (some 0) false = .ok (H', p') ∧
      p'.storedShape H' = some s ∧ s.GetNbinsX = h224.GetNbinsX ∧
      (∀ i, i < h224.GetNbinsX → s.GetBinContent i = h224.GetBinContent i / h224.Integral) ∧
      s.bins = h224.bins.map (fun x => x / h224.Integral)) ∧
    h224.bins.map (fun x => x / h224.Integral) = [1/4, 1/4, 1/2] :=
  ⟨⟨by decide, by rfl, by decide, by norm_num [TH1.Integral, h224]⟩,
   set_shape_bins heap224 Process.default 0 h224 false (by decide) (by rfl) (by decide)
     (by norm_num [TH1.Integral, h224]),
   by norm_num [TH1.Integral, h224]⟩

/-- C3: with `set_rate = true` the rate becomes the integral `S` of the incoming
histogram, whatever the sign of `S`: the value before the rescale. -/
theorem set_shape_rate_capture (H : Heap) (p : Process) (ptr : Ptr) (h : TH1)
    (hp : p.owns H = true) (hh : H.get? ptr = some h) (hne : p.shape_ ≠ some ptr) :
    ∃ H' p', p.set_shape H (some ptr) true = .ok (H', p') ∧ p'.rate_ = h.Integral := by
  obtain ⟨H', hrun, -, -⟩ := set_shape_some H p ptr h true hp hh hne
  exact ⟨H', _, hrun, by simp⟩

/-- Witness of C3: `[2, 2, 4]` sets the rate to its integral, 8, while the
stored shape integrates to 1. -/
theorem set_shape_rate_capture_witness :
    (Process.default.owns heap224 = true ∧ heap224.get? 0 = some h224 ∧
     Process.default.shape_ ≠ some 0) ∧
    (∃ H' p', Process.default.set_shape heap224 (some 0) true = .ok (H', p') ∧
      p'.rate_ = h224.Integral) ∧
    h224.Integral = 8 :=
  ⟨⟨by decide, by rfl, by decide⟩,
   set_shape_rate_capture heap224 Process.default 0 h224 (by decide) (by rfl) (by decide),
   by norm_num [TH1.Integral, h224]⟩


/-- C4, counterexample: `[1, -3]` is accepted by `set_shape`, its integral is
`-2`, not zero, and the stored shape does not integrate to 1. -/
theorem set_shape_negative_integral_counterexample :
    (Process.default.owns heapNeg = true ∧ heapNeg.get? 0 = some hNeg ∧
     Process.default.shape_ ≠ some 0) ∧
    ∃ H' p' s, Process.default.set_shape heapNeg (some 0) false = .ok (H', p') ∧
      p'.storedShape H' = some s ∧ hNeg.Integral ≠ 0 ∧ s.Integral ≠ 1 := by
  refine ⟨⟨by decide, by rfl, by decide⟩, ?_⟩
  obtain ⟨H', hrun, hget, -⟩ :=
    set_shape_some heapNeg Process.default 0 hNeg false (by decide) (by rfl) (by decide)
  have hI : hNeg.Integral = -2 := by norm_num [TH1.Integral, hNeg]
  refine ⟨H', _, hNeg.SetDirectory none, hrun, ?_, ?_, ?_⟩
  · simpa [storedShape, hI] using hget
  · rw [hI]; norm_num
  · show hNeg.Integral ≠ 1
    rw [hI]; norm_num

/-- C4, amended: after `set_shape` the stored shape integrates to exactly 1 when
the integral of `h` is strictly positive; when it is zero or negative the
stored shape is `h` unscaled. -/
theorem set_shape_unit_or_unscaled (H : Heap) (p : Process) (ptr : Ptr) (h : TH1)
    (set_rate : Bool) (hp : p.owns H = true) (hh : H.get? ptr = some h)
    (hne : p.shape_ ≠ some ptr) :
    ∃ H' p' s, p.set_shape H (some ptr) set_rate = .ok (H', p') ∧
      p'.storedShape H' = some s ∧
      (0 < h.Integral → s.Integral = 1) ∧
      (h.Integral ≤ 0 → s.bins = h.bins ∧ s = h.SetDirectory none) := by
  obtain ⟨H', hrun, hget, -⟩ := set_shape_some H p ptr h set_rate hp hh hne
  by_cases hpos : 0 < h.Integral
  · refine ⟨H', _, (h.SetDirectory none).Scale (1 / h.Integral), hrun, ?_, ?_, ?_⟩
    · simpa [storedShape, hpos] using hget
    · intro _
      rw [TH1.Integral_Scale]
      exact one_div_mul_cancel (ne_of_gt hpos)
    · intro hle
      exact absurd hpos (not_lt.mpr hle)
  · refine ⟨H', _, h.SetDirectory none, hrun, ?_, ?_, ?_⟩
    · simpa [storedShape, hpos] using hget
    · intro h0
      exact absurd h0 hpos
    · intro _
      exact ⟨rfl, rfl⟩

/-- Witness of the amended C4 at `[1, -3]`. -/
theorem set_shape_unit_or_unscaled_witness :
    (Process.default.owns heapNeg = true ∧ heapNeg.get? 0 = some hNeg ∧
     Process.default.shape_ ≠ some 0) ∧
    ∃ H' p' s, Process.default.set_shape heapNeg (some 0) true = .ok (H', p') ∧
      p'.storedShape H' = some s ∧
      (0 < hNeg.Integral → s.Integral = 1) ∧
      (hNeg.Integral ≤ 0 → s.bins = hNeg.bins ∧ s = hNeg.SetDirectory none) :=
  ⟨⟨by decide, by rfl, by decide⟩,
   set_shape_unit_or_unscaled heapNeg Process.default 0 hNeg true
     (by decide) (by rfl) (by decide)⟩

/-- C5: a histogram all of whose bins are zero is stored without error, with
the same number of bins, all zero: the bins are the incoming ones. -/
theorem set_shape_all_zero (H : Heap) (p : Process) (ptr : Ptr) (h : TH1)
    (set_rate : Bool) (hp : p.owns H = true) (hh : H.get? ptr = some h)
    (hne : p.shape_ ≠ some ptr) (hz : ∀ x ∈ h.bins, x = 0) :
    ∃ H' p' s, p.set_shape H (some ptr) set_rate = .ok (H', p') ∧
      p'.storedShape H' = some s ∧ s.GetNbinsX = h.GetNbinsX ∧
      (∀ x ∈ s.bins, x = 0) ∧ s.bins = h.bins := by
  obtain ⟨H', hrun, hget, -⟩ := set_shape_some H p ptr h set_rate hp hh hne
  have hI : h.Integral = 0 := List.sum_eq_zero hz
  refine ⟨H', _, h.SetDirectory none, hrun, ?_, rfl, hz, rfl⟩
  simpa [storedShape, hI] using hget

/-- Witness of C5 at `[0, 0, 0]`. -/
theorem set_shape_all_zero_witness :
    (Process.default.owns heapZero = true ∧ heapZero.get? 0 = some hZero ∧
     Process.default.shape_ ≠ some 0 ∧ ∀ x ∈ hZero.bins, x = 0) ∧
    ∃ H' p' s, Process.default.set_shape heapZero (some 0) true = .ok (H', p') ∧
      p'.storedShape H' = some s ∧ s.GetNbinsX = hZero.GetNbinsX ∧
      (∀ x ∈ s.bins, x = 0) ∧ s.bins = hZero.bins :=
  ⟨⟨by decide, by rfl, by decide, by simp [hZero]⟩,
   set_shape_all_zero heapZero Process.default 0 hZero true (by decide) (by rfl) (by decide)
     (by simp [hZero])⟩

/-- C6: `set_shape(nullptr, set_rate)` raises no error and leaves the process
with a null shape; rate, signal, pdf, data, norm and the metadata are unchanged,
also when `set_rate` is true.  The histogram owned before is deleted, no other
one is touched. -/
theorem set_shape_null (H : Heap) (p : Process) (set_rate : Bool) (hp : p.owns H = true) :
    ∃ H' p', p.set_shape H none set_rate = .ok (H', p') ∧ p'.shape_ = none ∧
      p'.rate_ = p.rate_ ∧ p'.signal_ = p.signal_ ∧ p'.pdf_ = p.pdf_ ∧
      p'.data_ = p.data_ ∧ p'.norm_ = p.norm_ ∧ p'.base = p.base ∧
      (∀ b, p.shape_ = some b → H'.get? b = none) ∧
      (∀ b, p.shape_ ≠ some b → H'.get? b = H.get? b) := by
  obtain ⟨H1, hreset, hframe, hfreed⟩ := resetFrom_ok H p hp
  refine ⟨H1, { p with shape_ := none }, ?_, rfl, rfl, rfl, rfl, rfl, rfl, rfl, hfreed, hframe⟩
  simp [set_shape, hreset, bind, Except.bind, pure, Except.pure]

/-- Witness of C6: a process with rate 10 and a stored shape, `set_rate = true`. -/
theorem set_shape_null_witness :
    procAt0.owns heap224 = true ∧
    ∃ H' p', procAt0.set_shape heap224 none true = .ok (H', p') ∧ p'.shape_ = none ∧
      p'.rate_ = procAt0.rate_ ∧ p'.signal_ = procAt0.signal_ ∧ p'.pdf_ = procAt0.pdf_ ∧
      p'.data_ = procAt0.data_ ∧ p'.norm_ = procAt0.norm_ ∧ p'.base = procAt0.base ∧
      (∀ b, procAt0.shape_ = some b → H'.get? b = none) ∧
      (∀ b, procAt0.shape_ ≠ some b → H'.get? b = heap224.get? b) :=
  ⟨by decide, set_shape_null heap224 procAt0 true (by decide)⟩

/-- C7: `set_shape` of a non-null histogram with `set_rate = false` leaves the
rate unchanged, and with either value of `set_rate` leaves signal, pdf, data,
norm and the metadata unchanged. -/
theorem set_shape_frame (H : Heap) (p : Process) (ptr : Ptr) (h : TH1)
    (set_rate : Bool) (hp : p.owns H = true) (hh : H.get? ptr = some h)
    (hne : p.shape_ ≠ some ptr) :
    ∃ H' p', p.set_shape H (some ptr) set_rate = .ok (H', p') ∧
      (set_rate = false → p'.rate_ = p.rate_) ∧ p'.signal_ = p.signal_ ∧
      p'.pdf_ = p.pdf_ ∧ p'.data_ = p.data_ ∧ p'.norm_ = p.norm_ ∧ p'.base = p.base := by
  obtain ⟨H', hrun, -, -⟩ := set_shape_some H p ptr h set_rate hp hh hne
  refine ⟨H', _, hrun, ?_, rfl, rfl, rfl, rfl, rfl⟩
  intro hf
  simp [hf]

/-- Witness of C7: on a default-constructed process, `set_shape([2, 2, 4], false)`
leaves the rate at 0. -/
theorem set_shape_frame_witness :
    (Process.default.owns heap224 = true ∧ heap224.get? 0 = some h224 ∧
     Process.default.shape_ ≠ some 0) ∧
    (∃ H' p', Process.default.set_shape heap224 (some 0) false = .ok (H', p') ∧
      (false = false → p'.rate_ = Process.default.rate_) ∧
      p'.signal_ = Process.default.signal_ ∧ p'.pdf_ = Process.default.pdf_ ∧
      p'.data_ = Process.default.data_ ∧ p'.norm_ = Process.default.norm_ ∧
      p'.base = Process.default.base) ∧
    Process.default.rate_ = 0 :=
  ⟨⟨by decide, by rfl, by decide⟩,
   set_shape_frame heap224 Process.default 0 h224 false (by decide) (by rfl) (by decide),
   rfl⟩


/-! ## Claims on the clones -/

/-- C8: for a process `a` whose `no_norm_rate()` is its rate `r` and which stores
the histogram `h`, `ClonedScaledShape` returns a new histogram with the same
number of bins, bin `i` being `h[i] * r`; it returns null when `a` has no shape;
the stored shape, and every other histogram, is left as it was. -/
theorem ClonedScaledShape_bins (no_norm_rate : Process → ℚ) (H : Heap) (a : Process)
    (hr : no_norm_rate a = a.rate_) :
    (a.shape_ = none → a.ClonedScaledShape no_norm_rate H = .ok (H, none)) ∧
    (∀ h, a.storedShape H = some h →
      ∃ H' c s, a.ClonedScaledShape no_norm_rate H = .ok (H', some c) ∧
        H'.get? c = some s ∧ s.GetNbinsX = h.GetNbinsX ∧
        (∀ i, i < h.GetNbinsX → s.GetBinContent i = h.GetBinContent i * a.rate_) ∧
        a.storedShape H' = some h ∧ (∀ b, b ≠ c → H'.get? b = H.get? b)) := by
  constructor
  · intro hnone
    simp [ClonedScaledShape, hnone, pure, Except.pure]
  · intro h hstored
    cases hs : a.shape_ with
    | none => simp [storedShape, hs] at hstored
    | some q =>
      have hh : H.get? q = some h := by simpa [storedShape, hs] using hstored
      obtain ⟨H1, hclone, hfresh, hframe, hq⟩ := ClonedShape_some H a q h hs hh
      refine ⟨H1.write H.cells.length ((h.SetDirectory none).Scale (no_norm_rate a)),
        H.cells.length, _, ?_, Heap.get?_write_same _ _ _ _ hfresh, ?_, ?_, ?_, ?_⟩
      · unfold ClonedScaledShape
        simp only [hs, hclone, bind, Except.bind, arrowMut_some _ _ _ _ hfresh]
        rfl
      · rw [TH1.GetNbinsX_Scale]; rfl
      · intro i _
        rw [TH1.GetBinContent_Scale, hr]
        show a.rate_ * h.GetBinContent i = h.GetBinContent i * a.rate_
        ring
      · simp only [storedShape, hs]
        rw [Heap.get?_write_other _ _ _ _ hq, hframe q hq, hh]
      · intro b hb
        rw [Heap.get?_write_other _ _ _ _ hb, hframe b hb]

/-- Witness of C8: the stored shape `[1/4, 1/4, 1/2]` and rate 10 give the bins
`[5/2, 5/2, 5]`. -/
theorem ClonedScaledShape_bins_witness :
    (fun p : Process => p.rate_) procAt0 = procAt0.rate_ ∧
    ((procAt0.shape_ = none →
        procAt0.ClonedScaledShape (fun p => p.rate_) heapNorm = .ok (heapNorm, none)) ∧
     (∀ h, procAt0.storedShape heapNorm = some h →
      ∃ H' c s, procAt0.ClonedScaledShape (fun p => p.rate_) heapNorm = .ok (H', some c) ∧
        H'.get? c = some s ∧ s.GetNbinsX = h.GetNbinsX ∧
        (∀ i, i < h.GetNbinsX → s.GetBinContent i = h.GetBinContent i * procAt0.rate_) ∧
        procAt0.storedShape H' = some h ∧ (∀ b, b ≠ c → H'.get? b = heapNorm.get? b))) ∧
    procAt0.storedShape heapNorm = some hNorm ∧
    hNorm.bins.map (fun x => x * procAt0.rate_) = [5/2, 5/2, 5] :=
  ⟨rfl, ClonedScaledShape_bins (fun p => p.rate_) heapNorm procAt0 rfl, rfl,
   by norm_num [hNorm, procAt0]⟩

/-- C9: `ClonedShape` returns null exactly when the process stores no shape;
otherwise it returns a new histogram with the bins of the stored one.  The
stored shape is left as it was, and stays so when a bin of the returned
histogram is written afterwards. -/
theorem ClonedShape_independent (H : Heap) (a : Process) (hp : a.owns H = true) :
    ∃ H' r, a.ClonedShape H = .ok (H', r) ∧ (r = none ↔ a.shape_ = none) ∧
      a.storedShape H' = a.storedShape H ∧
      ∀ c, r = some c → ∃ h s, a.storedShape H = some h ∧ H'.get? c = some s ∧
        s.bins = h.bins ∧
        ∀ i v, ∃ H'', arrowMut H' (some c) (fun x => x.SetBinContent i v) = .ok H'' ∧
          (∃ t, H''.get? c = some t ∧ t.bins = h.bins.set i v) ∧
          a.storedShape H'' = some h := by
  cases hs : a.shape_ with
  | none =>
    refine ⟨H, none, ?_, by simp, rfl, ?_⟩
    · simp [ClonedShape, hs, pure, Except.pure]
    · intro c hc
      simp at hc
  | some q =>
    have hlive : (H.get? q).isSome = true := by simpa [owns, hs] using hp
    obtain ⟨h, hh⟩ := Option.isSome_iff_exists.mp hlive
    obtain ⟨H1, hclone, hfresh, hframe, hq⟩ := ClonedShape_some H a q h hs hh
    have hstored : a.storedShape H = some h := by simp [storedShape, hs, hh]
    refine ⟨H1, some H.cells.length, hclone, by simp, ?_, ?_⟩
    · simp only [storedShape, hs]
      exact hframe q hq
    · intro c hc
      have hc2 : H.cells.length = c := by simpa using hc
      subst hc2
      refine ⟨h, h.SetDirectory none, hstored, hfresh, rfl, ?_⟩
      intro i v
      refine ⟨_, arrowMut_some _ _ _ _ hfresh, ⟨_, Heap.get?_write_same _ _ _ _ hfresh, rfl⟩, ?_⟩
      simp only [storedShape, hs]
      rw [Heap.get?_write_other _ _ _ _ hq, hframe q hq, hh]

/-- Witness of C9: the clone of the stored `[2, 2, 4]`. -/
theorem ClonedShape_independent_witness :
    procAt0.owns heap224 = true ∧
    ∃ H' r, procAt0.ClonedShape heap224 = .ok (H', r) ∧ (r = none ↔ procAt0.shape_ = none) ∧
      procAt0.storedShape H' = procAt0.storedShape heap224 ∧
      ∀ c, r = some c → ∃ h s, procAt0.storedShape heap224 = some h ∧ H'.get? c = some s ∧
        s.bins = h.bins ∧
        ∀ i v, ∃ H'', arrowMut H' (some c) (fun x => x.SetBinContent i v) = .ok H'' ∧
          (∃ t, H''.get? c = some t ∧ t.bins = h.bins.set i v) ∧
          procAt0.storedShape H'' = some h :=
  ⟨by decide, ClonedShape_independent heap224 procAt0 (by decide)⟩


/-! ## Claims on copy construction -/

/-- C10: copy construction gives a process with the rate, signal, pdf, data,
norm and metadata of `src`; its shape is null when that of `src` is, and
otherwise a new histogram with the bins of the shape of `src`, not normalised
again.  The shape of `src` is left as it was, and stays so when a bin of the
shape of the copy is written afterwards. -/
theorem copyCtor_deep_copy (H : Heap) (src : Process) (hp : src.owns H = true) :
    ∃ H' q, src.copyCtor H = .ok (H', q) ∧
      (q.rate_ = src.rate_ ∧ q.signal_ = src.signal_ ∧ q.pdf_ = src.pdf_ ∧
       q.data_ = src.data_ ∧ q.norm_ = src.norm_ ∧ q.base = src.base) ∧
      (src.shape_ = none → q.shape_ = none) ∧
      (∀ h, src.storedShape H = some h →
        q.shape_ ≠ src.shape_ ∧ ∃ s, q.storedShape H' = some s ∧ s.bins = h.bins) ∧
      src.storedShape H' = src.storedShape H ∧
      (q.shape_ ≠ none → ∀ i v,
        ∃ H'', arrowMut H' q.shape_ (fun x => x.SetBinContent i v) = .ok H'' ∧
          src.storedShape H'' = src.storedShape H) := by
  cases hs : src.shape_ with
  | none =>
    refine ⟨H, { src with shape_ := none }, ?_, ⟨rfl, rfl, rfl, rfl, rfl, rfl⟩,
      fun _ => rfl, ?_, rfl, ?_⟩
    · simp [copyCtor, hs, resetFrom, bind, Except.bind, pure, Except.pure]
    · intro h hstored
      simp [storedShape, hs] at hstored
    · intro hq
      exact absurd rfl hq
  | some a =>
    have hlive : (H.get? a).isSome = true := by simpa [owns, hs] using hp
    obtain ⟨h, hh⟩ := Option.isSome_iff_exists.mp hlive
    have hfresh : (H.alloc h).1.get? H.cells.length = some h := Heap.get?_alloc_fresh H h
    have ha : a ≠ H.cells.length := Nat.ne_of_lt (Heap.lt_of_get? H a h hh)
    have hkeep : ((H.alloc h).1.write H.cells.length (h.SetDirectory none)).get? a = some h := by
      rw [Heap.get?_write_other _ _ _ _ ha, Heap.get?_alloc_other H h a ha, hh]
    have hnew : ((H.alloc h).1.write H.cells.length (h.SetDirectory none)).get? H.cells.length
        = some (h.SetDirectory none) := Heap.get?_write_same _ _ h _ hfresh
    refine ⟨(H.alloc h).1.write H.cells.length (h.SetDirectory none),
      { src with shape_ := some H.cells.length }, ?_, ⟨rfl, rfl, rfl, rfl, rfl, rfl⟩,
      ?_, ?_, ?_, ?_⟩
    · unfold copyCtor
      simp only [hs, Clone, Heap.read, hh, Except.map, bind, Except.bind]
      rw [show (H.alloc h).2 = H.cells.length from rfl, arrowMut_some _ _ h _ hfresh]
      simp [resetFrom, pure, Except.pure]
    · intro hnone
      simp at hnone
    · intro h2 hstored
      have h2eq : h = h2 := by simpa [storedShape, hs, hh] using hstored
      subst h2eq
      refine ⟨?_, h.SetDirectory none, ?_, rfl⟩
      · simp only [ne_eq, Option.some.injEq]
        exact fun e => ha e.symm
      · simpa [storedShape] using hnew
    · simp only [storedShape, hs]
      rw [hkeep, hh]
    · intro _ i v
      refine ⟨_, arrowMut_some _ _ _ _ hnew, ?_⟩
      simp only [storedShape, hs]
      rw [Heap.get?_write_other _ _ _ _ ha, hkeep, hh]

/-- Witness of C10: the copy of a process that stores `[2, 2, 4]`, a histogram
that is not normalised. -/
theorem copyCtor_deep_copy_witness :
    procAt0.owns heap224 = true ∧
    ∃ H' q, procAt0.copyCtor heap224 = .ok (H', q) ∧
      (q.rate_ = procAt0.rate_ ∧ q.signal_ = procAt0.signal_ ∧ q.pdf_ = procAt0.pdf_ ∧
       q.data_ = procAt0.data_ ∧ q.norm_ = procAt0.norm_ ∧ q.base = procAt0.base) ∧
      (procAt0.shape_ = none → q.shape_ = none) ∧
      (∀ h, procAt0.storedShape heap224 = some h →
        q.shape_ ≠ procAt0.shape_ ∧ ∃ s, q.storedShape H' = some s ∧ s.bins = h.bins) ∧
      procAt0.storedShape H' = procAt0.storedShape heap224 ∧
      (q.shape_ ≠ none → ∀ i v,
        ∃ H'', arrowMut H' q.shape_ (fun x => x.SetBinContent i v) = .ok H'' ∧
          procAt0.storedShape H'' = procAt0.storedShape heap224) :=
  ⟨by decide, copyCtor_deep_copy heap224 procAt0 (by decide)⟩



/-! ## Lemmas on swap, copy and assignment -/

theorem swap_eq (a b : Process) : swap a b = (b, a) := by
  cases a
  cases b
  rfl

theorem moveCtor_eq (a : Process) : Process.moveCtor a = (a, Process.default) := by
  cases a
  rfl

theorem resetFrom_ptr (H : Heap) (o : Option Ptr)
    (hlive : ∀ a, o = some a → (H.get? a).isSome = true) :
    ∃ H1, resetFrom H o = .ok H1 ∧ (∀ b, o ≠ some b → H1.get? b = H.get? b) ∧
      ∀ b, o = some b → H1.get? b = none := by
  have hp : ({ Process.default with shape_ := o } : Process).owns H = true := by
    cases o with
    | none => rfl
    | some a => simpa [owns] using hlive a rfl
  exact resetFrom_ok H { Process.default with shape_ := o } hp

/-- What the copy constructor does: the copy is `src` with a new shape pointer. -/
theorem copyCtor_spec (H : Heap) (src : Process) (hp : src.owns H = true) :
    ∃ H1 tmp, src.copyCtor H = .ok (H1, tmp) ∧ tmp = { src with shape_ := tmp.shape_ } ∧
      (src.shape_ = none → tmp.shape_ = none ∧ H1 = H) ∧
      (∀ q, src.shape_ = some q → tmp.shape_ = some H.cells.length ∧
        ∃ h, H.get? q = some h ∧ H1.get? H.cells.length = some (h.SetDirectory none)) ∧
      (∀ b, b ≠ H.cells.length → H1.get? b = H.get? b) := by
  cases hs : src.shape_ with
  | none =>
    refine ⟨H, { src with shape_ := none }, ?_, rfl, fun _ => ⟨rfl, rfl⟩, ?_, fun _ _ => rfl⟩
    · simp [copyCtor, hs, resetFrom, bind, Except.bind, pure, Except.pure]
    · intro q hq
      simp at hq
  | some a =>
    have hlive : (H.get? a).isSome = true := by simpa [owns, hs] using hp
    obtain ⟨h, hh⟩ := Option.isSome_iff_exists.mp hlive
    have hfresh : (H.alloc h).1.get? H.cells.length = some h := Heap.get?_alloc_fresh H h
    refine ⟨(H.alloc h).1.write H.cells.length (h.SetDirectory none),
      { src with shape_ := some H.cells.length }, ?_, rfl, ?_, ?_, ?_⟩
    · unfold copyCtor
      simp only [hs, Clone, Heap.read, hh, Except.map, bind, Except.bind]
      rw [show (H.alloc h).2 = H.cells.length from rfl, arrowMut_some _ _ h _ hfresh]
      simp [resetFrom, pure, Except.pure]
    · intro hnone
      simp at hnone
    · intro q hq
      have hqa : a = q := by simpa using hq
      subst hqa
      exact ⟨rfl, h, hh, Heap.get?_write_same _ _ h _ hfresh⟩
    · intro b hb
      rw [Heap.get?_write_other _ _ _ _ hb, Heap.get?_alloc_other H h b hb]

/-- What `self = rhs` does, also for `self` and `rhs` the same object: `self`
becomes `rhs` with a clone of its shape, and the histogram `self` owned is
deleted. -/
theorem copyAssign_spec (H : Heap) (self rhs : Process) (hs : self.owns H = true)
    (hr : rhs.owns H = true) :
    ∃ H1 tmp H', rhs.copyCtor H = .ok (H1, tmp) ∧ (swap self tmp).2.destroy H1 = .ok H' ∧
      copyAssign H self rhs = .ok (H', (swap self tmp).1) ∧
      tmp = { rhs with shape_ := tmp.shape_ } ∧
      (rhs.shape_ = none → tmp.shape_ = none) ∧
      (∀ h, rhs.storedShape H = some h → tmp.storedShape H' = some (h.SetDirectory none)) ∧
      (∀ b, b < H.cells.length → self.shape_ ≠ some b → H'.get? b = H.get? b) := by
  obtain ⟨H1, tmp, hcopy, htmp, hnone, hsome, hframe⟩ := copyCtor_spec H rhs hr
  have hlive1 : ∀ a, self.shape_ = some a → (H1.get? a).isSome = true := by
    intro a ha
    have hl : (H.get? a).isSome = true := by simpa [owns, ha] using hs
    obtain ⟨x, hx⟩ := Option.isSome_iff_exists.mp hl
    rw [hframe a (Nat.ne_of_lt (Heap.lt_of_get? H a x hx)), hx]
    rfl
  obtain ⟨H', hreset, hkeep, -⟩ := resetFrom_ptr H1 self.shape_ hlive1
  have hfreshne : self.shape_ ≠ some H.cells.length := by
    intro hc
    have hl : (H.get? H.cells.length).isSome = true := by simpa [owns, hc] using hs
    obtain ⟨x, hx⟩ := Option.isSome_iff_exists.mp hl
    exact absurd (Heap.lt_of_get? H _ x hx) (lt_irrefl _)
  refine ⟨H1, tmp, H', hcopy, ?_, ?_, htmp, fun h0 => (hnone h0).1, ?_, ?_⟩
  · rw [swap_eq]
    exact hreset
  · unfold copyAssign operatorAssign
    simp only [hcopy, bind, Except.bind, swap_eq, destroy, hreset]
    rfl
  · intro h hstored
    cases hq : rhs.shape_ with
    | none => simp [storedShape, hq] at hstored
    | some q =>
      obtain ⟨hptr, h2, hh2, hnew⟩ := hsome q hq
      have hh : H.get? q = some h := by simpa [storedShape, hq] using hstored
      have heq : h2 = h := by
        rw [hh] at hh2
        exact (Option.some.inj hh2).symm
      subst heq
      simp only [storedShape, hptr]
      rw [hkeep _ hfreshne, hnew]
  · intro b hb hne
    rw [hkeep b hne, hframe b (Nat.ne_of_lt hb)]


/-! ## Claims on assignment, move and swap -/

/-- C11: after `b = a` for an lvalue `a`, every scalar and reference member of
`b` is that of `a`, the shape of `b` is null when that of `a` is and otherwise a
histogram of its own with the bins of the shape of `a`, and the shape of `a` is
as before; after `a = a` the members and the bins of the shape of `a` are as
before.  The assignment is: copy-construct a temporary from the right-hand
side, swap it with the left-hand side, destroy the temporary. -/
theorem copyAssign_value (H : Heap) (a b : Process) (ha : a.owns H = true)
    (hb : b.owns H = true) (hdis : a.shape_ = none ∨ a.shape_ ≠ b.shape_) :
    (∃ H' b', copyAssign H b a = .ok (H', b') ∧
      (b'.base = a.base ∧ b'.rate_ = a.rate_ ∧ b'.signal_ = a.signal_ ∧ b'.pdf_ = a.pdf_ ∧
       b'.data_ = a.data_ ∧ b'.norm_ = a.norm_) ∧
      (a.shape_ = none → b'.shape_ = none) ∧
      (∀ h, a.storedShape H = some h → ∃ s, b'.storedShape H' = some s ∧ s.bins = h.bins) ∧
      a.storedShape H' = a.storedShape H ∧
      ∃ H1 tmp, a.copyCtor H = .ok (H1, tmp) ∧ b' = (swap b tmp).1 ∧
        (swap b tmp).2.destroy H1 = .ok H') ∧
    (∃ H' a', copyAssign H a a = .ok (H', a') ∧
      (a'.base = a.base ∧ a'.rate_ = a.rate_ ∧ a'.signal_ = a.signal_ ∧ a'.pdf_ = a.pdf_ ∧
       a'.data_ = a.data_ ∧ a'.norm_ = a.norm_) ∧
      (a.shape_ = none → a'.shape_ = none) ∧
      (∀ h, a.storedShape H = some h → ∃ s, a'.storedShape H' = some s ∧ s.bins = h.bins)) := by
  constructor
  · obtain ⟨H1, tmp, H', hcopy, hdestroy, hrun, htmp, hnone, hsome, hframe⟩ :=
      copyAssign_spec H b a hb ha
    rw [swap_eq] at hrun
    refine ⟨H', tmp, hrun, ?_, hnone, ?_, ?_, H1, tmp, hcopy, by rw [swap_eq], hdestroy⟩
    · rw [htmp]
      exact ⟨rfl, rfl, rfl, rfl, rfl, rfl⟩
    · intro h hstored
      exact ⟨h.SetDirectory none, hsome h hstored, rfl⟩
    · cases hq : a.shape_ with
      | none => simp [storedShape, hq]
      | some q =>
        have hl : (H.get? q).isSome = true := by simpa [owns, hq] using ha
        obtain ⟨x, hx⟩ := Option.isSome_iff_exists.mp hl
        have hne : b.shape_ ≠ some q := by
          rcases hdis with h0 | h1
          · rw [hq] at h0
            exact absurd h0 (by simp)
          · rw [hq] at h1
            exact fun e => h1 e.symm
        simp only [storedShape, hq]
        exact hframe q (Heap.lt_of_get? H q x hx) hne
  · obtain ⟨H1, tmp, H', -, -, hrun, htmp, hnone, hsome, -⟩ := copyAssign_spec H a a ha ha
    rw [swap_eq] at hrun
    refine ⟨H', tmp, hrun, ?_, hnone, ?_⟩
    · rw [htmp]
      exact ⟨rfl, rfl, rfl, rfl, rfl, rfl⟩
    · intro h hstored
      exact ⟨h.SetDirectory none, hsome h hstored, rfl⟩

/-- Witness of C11: `procAt1 = procAt0` and `procAt0 = procAt0` in a heap with
two histograms. -/
theorem copyAssign_value_witness :
    (procAt0.owns heapTwo = true ∧ procAt1.owns heapTwo = true ∧
     (procAt0.shape_ = none ∨ procAt0.shape_ ≠ procAt1.shape_)) ∧
    ((∃ H' b', copyAssign heapTwo procAt1 procAt0 = .ok (H', b') ∧
      (b'.base = procAt0.base ∧ b'.rate_ = procAt0.rate_ ∧ b'.signal_ = procAt0.signal_ ∧
       b'.pdf_ = procAt0.pdf_ ∧ b'.data_ = procAt0.data_ ∧ b'.norm_ = procAt0.norm_) ∧
      (procAt0.shape_ = none → b'.shape_ = none) ∧
      (∀ h, procAt0.storedShape heapTwo = some h →
        ∃ s, b'.storedShape H' = some s ∧ s.bins = h.bins) ∧
      procAt0.storedShape H' = procAt0.storedShape heapTwo ∧
      ∃ H1 tmp, procAt0.copyCtor heapTwo = .ok (H1, tmp) ∧ b' = (swap procAt1 tmp).1 ∧
        (swap procAt1 tmp).2.destroy H1 = .ok H') ∧
    (∃ H' a', copyAssign heapTwo procAt0 procAt0 = .ok (H', a') ∧
      (a'.base = procAt0.base ∧ a'.rate_ = procAt0.rate_ ∧ a'.signal_ = procAt0.signal_ ∧
       a'.pdf_ = procAt0.pdf_ ∧ a'.data_ = procAt0.data_ ∧ a'.norm_ = procAt0.norm_) ∧
      (procAt0.shape_ = none → a'.shape_ = none) ∧
      (∀ h, procAt0.storedShape heapTwo = some h →
        ∃ s, a'.storedShape H' = some s ∧ s.bins = h.bins))) :=
  ⟨⟨by decide, by decide, by decide⟩,
   copyAssign_value heapTwo procAt0 procAt1 (by decide) (by decide) (by decide)⟩

/-- C12: move construction from `a` gives a process with exactly the members of
`a`, the shape pointer included, and leaves `a` default-constructed; so does
`b = std::move(a)`, where the histogram `b` owned before is deleted and the one
handed over is not touched. -/
theorem move_transfers (H : Heap) (a b : Process) (hb : b.owns H = true)
    (hdis : a.shape_ = none ∨ a.shape_ ≠ b.shape_) :
    Process.moveCtor a = (a, Process.default) ∧
    (Process.default.shape_ = none ∧ Process.default.rate_ = 0 ∧
     Process.default.signal_ = false ∧ Process.default.pdf_ = none ∧
     Process.default.data_ = none ∧ Process.default.norm_ = none) ∧
    ∃ H', moveAssign H b a = .ok (H', a, Process.default) ∧
      a.storedShape H' = a.storedShape H := by
  refine ⟨moveCtor_eq a, ⟨rfl, rfl, rfl, rfl, rfl, rfl⟩, ?_⟩
  have hlive : ∀ q, b.shape_ = some q → (H.get? q).isSome = true := by
    intro q hq
    simpa [owns, hq] using hb
  obtain ⟨H', hreset, hkeep, -⟩ := resetFrom_ptr H b.shape_ hlive
  refine ⟨H', ?_, ?_⟩
  · unfold moveAssign operatorAssign
    simp only [moveCtor_eq, swap_eq, destroy, hreset, bind, Except.bind]
    rfl
  · cases hq : a.shape_ with
    | none => simp [storedShape, hq]
    | some q =>
      have hne : b.shape_ ≠ some q := by
        rcases hdis with h0 | h1
        · rw [hq] at h0
          exact absurd h0 (by simp)
        · rw [hq] at h1
          exact fun e => h1 e.symm
      simp only [storedShape, hq]
      exact hkeep q hne

/-- Witness of C12: `procAt1 = std::move(procAt0)` in a heap with two histograms. -/
theorem move_transfers_witness :
    (procAt1.owns heapTwo = true ∧ (procAt0.shape_ = none ∨ procAt0.shape_ ≠ procAt1.shape_)) ∧
    (Process.moveCtor procAt0 = (procAt0, Process.default) ∧
    (Process.default.shape_ = none ∧ Process.default.rate_ = 0 ∧
     Process.default.signal_ = false ∧ Process.default.pdf_ = none ∧
     Process.default.data_ = none ∧ Process.default.norm_ = none) ∧
    ∃ H', moveAssign heapTwo procAt1 procAt0 = .ok (H', procAt0, Process.default) ∧
      procAt0.storedShape H' = procAt0.storedShape heapTwo) :=
  ⟨⟨by decide, by decide⟩, move_transfers heapTwo procAt0 procAt1 (by decide) (by decide)⟩

/-- C13: `swap(a, b)` exchanges every member: afterwards `a` is the former `b`
and `b` the former `a`.  No histogram is read or written, each of the two
stored shapes is the object the other process stored, and a second swap
restores both. -/
theorem swap_exchanges (a b : Process) (H : Heap) :
    swap a b = (b, a) ∧
    ((swap a b).1.base = b.base ∧ (swap a b).1.rate_ = b.rate_ ∧
     (swap a b).1.signal_ = b.signal_ ∧ (swap a b).1.shape_ = b.shape_ ∧
     (swap a b).1.pdf_ = b.pdf_ ∧ (swap a b).1.data_ = b.data_ ∧
     (swap a b).1.norm_ = b.norm_) ∧
    ((swap a b).2.base = a.base ∧ (swap a b).2.rate_ = a.rate_ ∧
     (swap a b).2.signal_ = a.signal_ ∧ (swap a b).2.shape_ = a.shape_ ∧
     (swap a b).2.pdf_ = a.pdf_ ∧ (swap a b).2.data_ = a.data_ ∧
     (swap a b).2.norm_ = a.norm_) ∧
    ((swap a b).1.storedShape H = b.storedShape H ∧
     (swap a b).2.storedShape H = a.storedShape H) ∧
    swap (swap a b).1 (swap a b).2 = (a, b) := by
  rw [swap_eq a b]
  exact ⟨rfl, ⟨rfl, rfl, rfl, rfl, rfl, rfl, rfl⟩, ⟨rfl, rfl, rfl, rfl, rfl, rfl, rfl⟩,
    ⟨rfl, rfl⟩, swap_eq b a⟩


/-! ## Claims on `ShapeAsTH1F` -/

theorem dynamic_cast_some (H : Heap) (a : Ptr) (h : TH1) (k : TH1Kind)
    (hh : H.get? a = some h) :
    dynamic_cast H (some a) k = .ok (if h.kind = k then some a else none) := by
  simp [dynamic_cast, Heap.read, hh, Except.map]

/-- C14: `ShapeAsTH1F` raises the error "Process object does not contain a
shape" exactly when the shape and the dataset reference are both null; the pdf
reference does not enter. -/
theorem ShapeAsTH1F_missing_shape (datasets : Nat → Option RooAbsData) (H : Heap)
    (p : Process) :
    p.ShapeAsTH1F datasets H
        = .error (.runtime_error (FNERROR "Process object does not contain a shape")) ↔
      (p.shape_ = none ∧ p.data_ = none) := by
  constructor
  · intro herr
    by_contra hcon
    cases hs : p.shape_ with
    | some a =>
      cases hg : H.get? a with
      | none =>
        simp [ShapeAsTH1F, hs, Process.shape, dynamic_cast, Heap.read, hg, Except.map,
          bind, Except.bind] at herr
      | some h =>
        unfold ShapeAsTH1F at herr
        simp only [hs, Process.shape, dynamic_cast_some H a h _ hg, bind, Except.bind] at herr
        cases hk : h.kind <;>
          simp [hk, arrow_some H a h _ hg, pure, Except.pure, FNERROR] at herr
    | none =>
      cases hd : p.data_ with
      | none => exact hcon ⟨hs, hd⟩
      | some k =>
        unfold ShapeAsTH1F at herr
        simp only [hs, hd, Process.shape, Process.data, derefData] at herr
        cases hk : datasets k with
        | none => simp [hk, bind, Except.bind] at herr
        | some ds =>
          have hfresh := Heap.get?_alloc_fresh H (ds.createHistogram ds.primaryVariableName)
          simp only [hk, bind, Except.bind, Option.isNone_none, Option.isNone_some,
            Option.isSome_none, Option.isSome_some, Bool.and_false, Bool.false_eq_true,
            if_false, if_true] at herr
          rw [dynamic_cast_some _ _ _ _ hfresh] at herr
          by_cases hkind : (ds.createHistogram ds.primaryVariableName).kind = .TH1F
          · simp only [hkind, if_true, arrow_some _ _ _ _ hfresh, deletePtr, Heap.free,
              hfresh] at herr
            split at herr
            · rename_i hpos
              simp [divide, ne_of_gt hpos, pure, Except.pure] at herr
            · simp [pure, Except.pure] at herr
          · simp [hkind, arrow] at herr
  · rintro ⟨hs, hd⟩
    simp [ShapeAsTH1F, hs, hd]


theorem Heap.free_some (H : Heap) (a : Ptr) (x : TH1) (hx : H.get? a = some x) :
    ∃ H1, H.free a = .ok H1 ∧ (∀ b, b ≠ a → H1.get? b = H.get? b) ∧ H1.get? a = none := by
  obtain ⟨H1, hreset, hkeep, hfreed⟩ :=
    resetFrom_ptr H (some a) (fun b hb => by
      have hab : a = b := by simpa using hb
      subst hab
      rw [hx]
      rfl)
  refine ⟨H1, hreset, ?_, hfreed a rfl⟩
  intro b hb
  exact hkeep b (by simpa using fun e : a = b => hb e.symm)

/-- C15: with a stored shape `h`, `ShapeAsTH1F` looks at the shape only: it
raises "TH1 shape is not a TH1F or a TH1D" when `h` is of neither kind, and
otherwise returns, without error and without touching the heap, a `TH1F` with
the bins of `h` as they are; the dataset reference and the datasets do not
enter. -/
theorem ShapeAsTH1F_of_shape (datasets : Nat → Option RooAbsData) (H : Heap) (p : Process)
    (h : TH1) (hs : p.storedShape H = some h) :
    ((h.kind ≠ .TH1F ∧ h.kind ≠ .TH1D) →
      p.ShapeAsTH1F datasets H
        = .error (.runtime_error (FNERROR "TH1 shape is not a TH1F or a TH1D"))) ∧
    ((h.kind = .TH1F ∨ h.kind = .TH1D) →
      ∃ r, p.ShapeAsTH1F datasets H = .ok (H, r) ∧ r.bins = h.bins ∧ r.kind = .TH1F) ∧
    (∀ (datasets2 : Nat → Option RooAbsData) (d : Option Nat),
      ({ p with data_ := d } : Process).ShapeAsTH1F datasets2 H = p.ShapeAsTH1F datasets H) := by
  cases hq : p.shape_ with
  | none => simp [storedShape, hq] at hs
  | some a =>
    have hg : H.get? a = some h := by simpa [storedShape, hq] using hs
    have hrun : ∀ (ds2 : Nat → Option RooAbsData) (q : Process), q.shape_ = some a →
        q.ShapeAsTH1F ds2 H =
          if h.kind = .TH1F ∨ h.kind = .TH1D then .ok (H, h.Copy TH1.TH1F_default)
          else .error (.runtime_error (FNERROR "TH1 shape is not a TH1F or a TH1D")) := by
      intro ds2 q hqs
      unfold ShapeAsTH1F
      simp only [hqs, Process.shape, dynamic_cast_some H a h _ hg, bind, Except.bind]
      cases hk : h.kind <;> simp [hk, arrow_some H a h _ hg, pure, Except.pure]
    refine ⟨?_, ?_, ?_⟩
    · rintro ⟨hf, hd⟩
      rw [hrun datasets p hq]
      simp [hf, hd]
    · intro hkind
      refine ⟨h.Copy TH1.TH1F_default, ?_, rfl, rfl⟩
      rw [hrun datasets p hq]
      simp [hkind]
    · intro ds2 d
      rw [hrun datasets p hq]
      exact hrun ds2 _ rfl

/-- Witness of C15: the stored `TH1F` `[2, 2, 4]` is exported as it is. -/
theorem ShapeAsTH1F_of_shape_witness :
    procAt0.storedShape heap224 = some h224 ∧
    (((h224.kind ≠ .TH1F ∧ h224.kind ≠ .TH1D) →
      procAt0.ShapeAsTH1F datasetsX heap224
        = .error (.runtime_error (FNERROR "TH1 shape is not a TH1F or a TH1D"))) ∧
    ((h224.kind = .TH1F ∨ h224.kind = .TH1D) →
      ∃ r, procAt0.ShapeAsTH1F datasetsX heap224 = .ok (heap224, r) ∧ r.bins = h224.bins ∧
        r.kind = .TH1F) ∧
    (∀ (datasets2 : Nat → Option RooAbsData) (d : Option Nat),
      ({ procAt0 with data_ := d } : Process).ShapeAsTH1F datasets2 heap224
        = procAt0.ShapeAsTH1F datasetsX heap224)) ∧
    (h224.kind = .TH1F ∨ h224.kind = .TH1D) :=
  ⟨rfl, ShapeAsTH1F_of_shape datasetsX heap224 procAt0 h224 rfl, Or.inl rfl⟩

/-- C16: with a null shape and a dataset reference, `ShapeAsTH1F` returns the
histogram `d` the dataset builds for its first variable, each bin divided by
the integral of `d` (the result integrates to 1) when that integral is strictly
positive, and with the bins of `d` as they are when it is not; the shape of the
process stays null and no histogram that existed before is touched. -/
theorem ShapeAsTH1F_of_data (datasets : Nat → Option RooAbsData) (H : Heap) (p : Process)
    (k : Nat) (ds : RooAbsData) (hs : p.shape_ = none) (hd : p.data_ = some k)
    (hk : datasets k = some ds)
    (hkind : (ds.createHistogram ds.primaryVariableName).kind = .TH1F) :
    ∃ H' r, p.ShapeAsTH1F datasets H = .ok (H', r) ∧
      (0 < (ds.createHistogram ds.primaryVariableName).Integral →
        r.bins = (ds.createHistogram ds.primaryVariableName).bins.map
          (fun x => x / (ds.createHistogram ds.primaryVariableName).Integral) ∧
        r.Integral = 1) ∧
      (¬ 0 < (ds.createHistogram ds.primaryVariableName).Integral →
        r.bins = (ds.createHistogram ds.primaryVariableName).bins) ∧
      p.storedShape H' = none ∧ (∀ b, b < H.cells.length → H'.get? b = H.get? b) := by
  have hfresh := Heap.get?_alloc_fresh H (ds.createHistogram ds.primaryVariableName)
  obtain ⟨H1, hfree, hkeep, -⟩ := Heap.free_some _ _ _ hfresh
  have hI : ((ds.createHistogram ds.primaryVariableName).Copy TH1.TH1F_default).Integral
      = (ds.createHistogram ds.primaryVariableName).Integral := rfl
  have hframe : ∀ b, b < H.cells.length → H1.get? b = H.get? b := by
    intro b hb
    have hne : b ≠ (H.alloc (ds.createHistogram ds.primaryVariableName)).2 := Nat.ne_of_lt hb
    rw [hkeep b hne, Heap.get?_alloc_other H _ b hne]
  have hrun : p.ShapeAsTH1F datasets H =
      if 0 < (ds.createHistogram ds.primaryVariableName).Integral then
        .ok (H1, ((ds.createHistogram ds.primaryVariableName).Copy TH1.TH1F_default).Scale
          (1 / (ds.createHistogram ds.primaryVariableName).Integral))
      else .ok (H1, (ds.createHistogram ds.primaryVariableName).Copy TH1.TH1F_default) := by
    unfold ShapeAsTH1F
    simp only [hs, hd, Process.shape, Process.data, derefData, hk, bind, Except.bind,
      Option.isNone_none, Option.isNone_some, Option.isSome_none, Option.isSome_some,
      Bool.and_false, Bool.false_eq_true, if_false, if_true]
    rw [dynamic_cast_some _ _ _ _ hfresh]
    simp only [hkind, if_true, arrow_some _ _ _ _ hfresh, deletePtr, hfree, hI]
    by_cases hpos : 0 < (ds.createHistogram ds.primaryVariableName).Integral
    · simp [hpos, divide, ne_of_gt hpos, pure, Except.pure]
    · simp [hpos, pure, Except.pure]
  by_cases hpos : 0 < (ds.createHistogram ds.primaryVariableName).Integral
  · refine ⟨H1, _, by rw [hrun, if_pos hpos], ?_, fun hn => absurd hpos hn,
      by simp [storedShape, hs], hframe⟩
    intro _
    constructor
    · show (ds.createHistogram ds.primaryVariableName).bins.map
          (fun x => 1 / (ds.createHistogram ds.primaryVariableName).Integral * x) = _
      apply List.map_congr_left
      intro x _
      ring
    · rw [TH1.Integral_Scale, hI]
      exact one_div_mul_cancel (ne_of_gt hpos)
  · refine ⟨H1, (ds.createHistogram ds.primaryVariableName).Copy TH1.TH1F_default,
      by rw [hrun, if_neg hpos], fun hp => absurd hp hpos, fun _ => rfl,
      by simp [storedShape, hs], hframe⟩

/-- Witness of C16: the dataset builds `[1, 3]`, the export is `[1/4, 3/4]`. -/
theorem ShapeAsTH1F_of_data_witness :
    (procData.shape_ = none ∧ procData.data_ = some 0 ∧ datasetsX 0 = some dataX ∧
     (dataX.createHistogram dataX.primaryVariableName).kind = .TH1F) ∧
    (∃ H' r, procData.ShapeAsTH1F datasetsX heap224 = .ok (H', r) ∧
      (0 < (dataX.createHistogram dataX.primaryVariableName).Integral →
        r.bins = (dataX.createHistogram dataX.primaryVariableName).bins.map
          (fun x => x / (dataX.createHistogram dataX.primaryVariableName).Integral) ∧
        r.Integral = 1) ∧
      (¬ 0 < (dataX.createHistogram dataX.primaryVariableName).Integral →
        r.bins = (dataX.createHistogram dataX.primaryVariableName).bins) ∧
      procData.storedShape H' = none ∧
      (∀ b, b < heap224.cells.length → H'.get? b = heap224.get? b)) ∧
    (dataX.createHistogram dataX.primaryVariableName).bins.map
      (fun x => x / (dataX.createHistogram dataX.primaryVariableName).Integral) = [1/4, 3/4] :=
  ⟨⟨rfl, rfl, rfl, rfl⟩,
   ShapeAsTH1F_of_data datasetsX heap224 procData 0 dataX rfl rfl rfl rfl,
   by norm_num [dataX, TH1.Integral]⟩


/-! ## Round trips -/

/-- What `ClonedScaledShape` does for a process that stores the histogram `h`. -/
theorem ClonedScaledShape_some (no_norm_rate : Process → ℚ) (H : Heap) (a : Process)
    (q : Ptr) (h : TH1) (hs : a.shape_ = some q) (hh : H.get? q = some h) :
    ∃ H', a.ClonedScaledShape no_norm_rate H = .ok (H', some H.cells.length) ∧
      H'.get? H.cells.length = some ((h.SetDirectory none).Scale (no_norm_rate a)) ∧
      (∀ b, b ≠ H.cells.length → H'.get? b = H.get? b) ∧ q ≠ H.cells.length := by
  obtain ⟨H1, hclone, hfresh, hframe, hq⟩ := ClonedShape_some H a q h hs hh
  refine ⟨H1.write H.cells.length ((h.SetDirectory none).Scale (no_norm_rate a)), ?_,
    Heap.get?_write_same _ _ _ _ hfresh, ?_, hq⟩
  · unfold ClonedScaledShape
    simp only [hs, hclone, bind, Except.bind, arrowMut_some _ _ _ _ hfresh]
    rfl
  · intro b hb
    rw [Heap.get?_write_other _ _ _ _ hb, hframe b hb]

theorem TH1.Scale_bins (h : TH1) (c : ℚ) : (h.Scale c).bins = h.bins.map (fun x => c * x) := rfl

theorem TH1.map_mul_one (l : List ℚ) (c d : ℚ) (hcd : c * d = 1) :
    (l.map (fun x => d * x)).map (fun x => c * x) = l := by
  rw [List.map_map]
  conv_rhs => rw [← List.map_id l]
  apply List.map_congr_left
  intro x _
  show c * (d * x) = x
  rw [← mul_assoc, hcd, one_mul]

theorem TH1.map_zero_mul (l : List ℚ) (hz : ∀ x ∈ l, x = 0) :
    l.map (fun x => (0 : ℚ) * x) = l := by
  conv_rhs => rw [← List.map_id l]
  apply List.map_congr_left
  intro x hx
  simp [hz x hx]

/-- C18: after `set_shape(h, true)` of a histogram with strictly positive
integral, or with all bins zero, on a process whose `no_norm_rate()` is its
rate, `ClonedScaledShape` returns a histogram with the bins of `h`. -/
theorem set_shape_then_ClonedScaledShape (no_norm_rate : Process → ℚ) (H : Heap)
    (p : Process) (ptr : Ptr) (h : TH1) (hp : p.owns H = true) (hh : H.get? ptr = some h)
    (hne : p.shape_ ≠ some ptr) (hr : ∀ q : Process, no_norm_rate q = q.rate_)
    (hcase : 0 < h.Integral ∨ ∀ x ∈ h.bins, x = 0) :
    ∃ H1 p1 H2 c s, p.set_shape H (some ptr) true = .ok (H1, p1) ∧
      p1.ClonedScaledShape no_norm_rate H1 = .ok (H2, some c) ∧
      H2.get? c = some s ∧ s.GetNbinsX = h.GetNbinsX ∧ s.bins = h.bins := by
  obtain ⟨H1, hrun, hget, -⟩ := set_shape_some H p ptr h true hp hh hne
  have hrun1 : p.set_shape H (some ptr) true
      = .ok (H1, { p with shape_ := some ptr, rate_ := h.Integral }) := by
    simpa using hrun
  obtain ⟨H2, hclone, hfresh, -, -⟩ :=
    ClonedScaledShape_some no_norm_rate H1 { p with shape_ := some ptr, rate_ := h.Integral }
      ptr _ rfl hget
  have hbins : (((if 0 < h.Integral then (h.SetDirectory none).Scale (1 / h.Integral)
      else h.SetDirectory none).SetDirectory none).Scale h.Integral).bins = h.bins := by
    rcases hcase with hpos | hz
    · rw [if_pos hpos]
      exact TH1.map_mul_one h.bins _ _ (mul_one_div_cancel (ne_of_gt hpos))
    · have hI : h.Integral = 0 := List.sum_eq_zero hz
      rw [hI, if_neg (lt_irrefl 0)]
      exact TH1.map_zero_mul h.bins hz
  rw [hr] at hfresh
  exact ⟨H1, _, H2, H1.cells.length, _, hrun1, hclone, hfresh, congrArg List.length hbins, hbins⟩

/-- Witness of C18 at `[2, 2, 4]`. -/
theorem set_shape_then_ClonedScaledShape_witness :
    (Process.default.owns heap224 = true ∧ heap224.get? 0 = some h224 ∧
     Process.default.shape_ ≠ some 0 ∧
     (∀ q : Process, (fun r : Process => r.rate_) q = q.rate_) ∧
     (0 < h224.Integral ∨ ∀ x ∈ h224.bins, x = 0)) ∧
    ∃ H1 p1 H2 c s, Process.default.set_shape heap224 (some 0) true = .ok (H1, p1) ∧
      p1.ClonedScaledShape (fun r => r.rate_) H1 = .ok (H2, some c) ∧
      H2.get? c = some s ∧ s.GetNbinsX = h224.GetNbinsX ∧ s.bins = h224.bins :=
  ⟨⟨by decide, by rfl, by decide, fun _ => rfl, Or.inl (by norm_num [TH1.Integral, h224])⟩,
   set_shape_then_ClonedScaledShape (fun r => r.rate_) heap224 Process.default 0 h224
     (by decide) (by rfl) (by decide) (fun _ => rfl)
     (Or.inl (by norm_num [TH1.Integral, h224]))⟩


/-- C19: for a process whose stored shape `h` integrates to 1 and whose
`no_norm_rate()` is its rate `r`, `set_shape(ClonedScaledShape(), true)` leaves
the rate at `r`; for `r > 0` the stored shape has the bins of `h` again, for
`r = 0` all its bins are zero. -/
theorem ClonedScaledShape_then_set_shape (no_norm_rate : Process → ℚ) (H : Heap)
    (p : Process) (h : TH1) (hs : p.storedShape H = some h) (hint : h.Integral = 1)
    (hr : no_norm_rate p = p.rate_) :
    ∃ H1 c, p.ClonedScaledShape no_norm_rate H = .ok (H1, some c) ∧
      ∃ H2 p2 s, p.set_shape H1 (some c) true = .ok (H2, p2) ∧
        p2.storedShape H2 = some s ∧ p2.rate_ = p.rate_ ∧
        (0 < p.rate_ → s.GetNbinsX = h.GetNbinsX ∧ s.bins = h.bins) ∧
        (p.rate_ = 0 → ∀ x ∈ s.bins, x = 0) := by
  cases hq : p.shape_ with
  | none => simp [storedShape, hq] at hs
  | some q =>
    have hh : H.get? q = some h := by simpa [storedShape, hq] using hs
    obtain ⟨H1, hclone, hfresh, hframe, hqne⟩ :=
      ClonedScaledShape_some no_norm_rate H p q h hq hh
    rw [hr] at hfresh
    have hown : p.owns H1 = true := by
      simp only [owns, hq]
      rw [hframe q hqne, hh]
      rfl
    have hne : p.shape_ ≠ some H.cells.length := by
      rw [hq]
      simpa using hqne
    obtain ⟨H2, hrun, hget, -⟩ :=
      set_shape_some H1 p H.cells.length _ true hown hfresh hne
    have hI : ((h.SetDirectory none).Scale p.rate_).Integral = p.rate_ := by
      rw [TH1.Integral_Scale]
      show p.rate_ * h.Integral = p.rate_
      rw [hint, mul_one]
    rw [hI] at hget hrun
    refine ⟨H1, H.cells.length, hclone, H2, _,
      (if 0 < p.rate_ then
        (((h.SetDirectory none).Scale p.rate_).SetDirectory none).Scale (1 / p.rate_)
        else ((h.SetDirectory none).Scale p.rate_).SetDirectory none),
      hrun, ?_, by simp, ?_, ?_⟩
    · simpa [storedShape] using hget
    · intro hpos
      have hbins : (if 0 < p.rate_ then
          (((h.SetDirectory none).Scale p.rate_).SetDirectory none).Scale (1 / p.rate_)
          else ((h.SetDirectory none).Scale p.rate_).SetDirectory none).bins = h.bins := by
        rw [if_pos hpos]
        exact TH1.map_mul_one h.bins _ _ (one_div_mul_cancel (ne_of_gt hpos))
      exact ⟨congrArg List.length hbins, hbins⟩
    · intro hzero x hx
      rw [hzero, if_neg (lt_irrefl 0)] at hx
      have hx2 : x ∈ h.bins.map (fun y => (0 : ℚ) * y) := hx
      obtain ⟨y, -, hy⟩ := List.mem_map.mp hx2
      rw [← hy, zero_mul]

/-- Witness of C19: the stored shape `[1/4, 1/4, 1/2]` with rate 10. -/
theorem ClonedScaledShape_then_set_shape_witness :
    (procAt0.storedShape heapNorm = some hNorm ∧ hNorm.Integral = 1 ∧
     (fun r : Process => r.rate_) procAt0 = procAt0.rate_) ∧
    (∃ H1 c, procAt0.ClonedScaledShape (fun r => r.rate_) heapNorm = .ok (H1, some c) ∧
      ∃ H2 p2 s, procAt0.set_shape H1 (some c) true = .ok (H2, p2) ∧
        p2.storedShape H2 = some s ∧ p2.rate_ = procAt0.rate_ ∧
        (0 < procAt0.rate_ → s.GetNbinsX = hNorm.GetNbinsX ∧ s.bins = hNorm.bins) ∧
        (procAt0.rate_ = 0 → ∀ x ∈ s.bins, x = 0)) ∧
    0 < procAt0.rate_ :=
  ⟨⟨rfl, by norm_num [TH1.Integral, hNorm], rfl⟩,
   ClonedScaledShape_then_set_shape (fun r => r.rate_) heapNorm procAt0 hNorm rfl
     (by norm_num [TH1.Integral, hNorm]) rfl,
   by norm_num [procAt0]⟩

/-- C20: for a process `p` whose shape was installed by `set_shape` from any
histogram `h`, `set_shape(ClonedShape(), false)` leaves the metadata, rate,
signal, pdf, data and norm of `p` as they are and the stored shape equal to
what it was, bin by bin. -/
theorem set_shape_ClonedShape_idempotent (H0 : Heap) (p0 : Process) (ptr : Ptr) (h : TH1)
    (set_rate : Bool) (hp : p0.owns H0 = true) (hh : H0.get? ptr = some h)
    (hne : p0.shape_ ≠ some ptr) :
    ∃ H p, p0.set_shape H0 (some ptr) set_rate = .ok (H, p) ∧
      ∃ H1 c, p.ClonedShape H = .ok (H1, some c) ∧
        ∃ H2 p2 s, p.set_shape H1 (some c) false = .ok (H2, p2) ∧
          (p2.base = p.base ∧ p2.rate_ = p.rate_ ∧ p2.signal_ = p.signal_ ∧
           p2.pdf_ = p.pdf_ ∧ p2.data_ = p.data_ ∧ p2.norm_ = p.norm_) ∧
          p.storedShape H = some s ∧ p2.storedShape H2 = some s := by
  obtain ⟨H, hrun0, hstored, -⟩ := set_shape_some H0 p0 ptr h set_rate hp hh hne
  obtain ⟨p, hpdef⟩ : ∃ p : Process,
      p = { p0 with shape_ := some ptr,
                    rate_ := if set_rate = true then h.Integral else p0.rate_ } := ⟨_, rfl⟩
  rw [← hpdef] at hrun0
  have hpshape : p.shape_ = some ptr := by rw [hpdef]
  obtain ⟨H1, hclone, hfresh, hframe, hqne⟩ := ClonedShape_some H p ptr _ hpshape hstored
  have hown : p.owns H1 = true := by
    simp only [owns, hpshape]
    rw [hframe ptr hqne, hstored]
    rfl
  have hne1 : p.shape_ ≠ some H.cells.length := by
    rw [hpshape]
    simpa using hqne
  obtain ⟨H2, hrun, hget, -⟩ := set_shape_some H1 p H.cells.length _ false hown hfresh hne1
  refine ⟨H, p, hrun0, H1, H.cells.length, hclone, H2, _,
    (if 0 < h.Integral then (h.SetDirectory none).Scale (1 / h.Integral)
      else h.SetDirectory none), hrun,
    ⟨rfl, by simp, rfl, rfl, rfl, rfl⟩, by simpa [storedShape, hpshape] using hstored, ?_⟩
  simp only [storedShape]
  rw [hget]
  by_cases hpos : 0 < h.Integral
  · have hI : ((h.SetDirectory none).Scale (1 / h.Integral)).Integral = 1 := by
      rw [TH1.Integral_Scale]
      exact one_div_mul_cancel (ne_of_gt hpos)
    have hI2 : (((h.SetDirectory none).Scale (1 / h.Integral)).SetDirectory none).Integral = 1 :=
      hI
    simp only [if_pos hpos, hI2, zero_lt_one, if_true]
    congr 1
    simp [TH1.Scale, TH1.SetDirectory]
  · have hI2 : ((h.SetDirectory none).SetDirectory none).Integral = h.Integral := rfl
    simp only [if_neg hpos, hI2]
    rfl

/-- Witness of C20: the shape installed from `[1, -3]`, whose integral is negative. -/
theorem set_shape_ClonedShape_idempotent_witness :
    (Process.default.owns heapNeg = true ∧ heapNeg.get? 0 = some hNeg ∧
     Process.default.shape_ ≠ some 0) ∧
    ∃ H p, Process.default.set_shape heapNeg (some 0) true = .ok (H, p) ∧
      ∃ H1 c, p.ClonedShape H = .ok (H1, some c) ∧
        ∃ H2 p2 s, p.set_shape H1 (some c) false = .ok (H2, p2) ∧
          (p2.base = p.base ∧ p2.rate_ = p.rate_ ∧ p2.signal_ = p.signal_ ∧
           p2.pdf_ = p.pdf_ ∧ p2.data_ = p.data_ ∧ p2.norm_ = p.norm_) ∧
          p.storedShape H = some s ∧ p2.storedShape H2 = some s :=
  ⟨⟨by decide, by rfl, by decide⟩,
   set_shape_ClonedShape_idempotent heapNeg Process.default 0 hNeg true
     (by decide) (by rfl) (by decide)⟩


/-! ## Lemmas on programs over several processes -/

theorem getElem?_set_iff {α : Type} (l : List α) (i k : Nat) (p x q : α)
    (hi : l[i]? = some p) :
    (l.set i x)[k]? = some q ↔ (k = i ∧ q = x) ∨ (k ≠ i ∧ l[k]? = some q) := by
  have hlt : i < l.length := by
    by_contra hc
    rw [List.getElem?_eq_none (not_lt.mp hc)] at hi
    simp at hi
  rw [List.getElem?_set]
  by_cases hik : i = k
  · subst hik
    simp [hlt, eq_comm]
  · have hki : k ≠ i := fun e => hik e.symm
    simp [hik, hki]

theorem getElem?_push_iff {α : Type} (l : List α) (k : Nat) (x q : α) :
    (l ++ [x])[k]? = some q ↔ l[k]? = some q ∨ (k = l.length ∧ q = x) := by
  rw [List.getElem?_append]
  by_cases hk : k < l.length
  · simp [hk, Nat.ne_of_lt hk]
  · have hn : l[k]? = none := List.getElem?_eq_none (not_lt.mp hk)
    simp only [hk, if_false, hn, false_or]
    by_cases hkl : k = l.length
    · subst hkl
      simp [eq_comm]
    · have hpos : 0 < k - l.length := by omega
      have hn2 : [x][k - l.length]? = none :=
        List.getElem?_eq_none (by simp only [List.length_singleton]; omega)
      simp [hn2, hkl]

theorem getElem?_lt {α : Type} (l : List α) (k : Nat) (q : α) (hk : l[k]? = some q) :
    k < l.length := by
  by_contra hc
  rw [List.getElem?_eq_none (not_lt.mp hc)] at hk
  simp at hk

theorem World.construct_WF (P : Ptr → List ℚ → Prop) (w w1 : World) (hw : w.WF P)
    (hstep : w.construct = some w1) : w1.WF P := by
  simp only [World.construct, Option.some.injEq] at hstep
  subst hstep
  have hold : ∀ (k : Nat) (q : Process) (a : Ptr),
      (w.procs ++ [Process.default])[k]? = some q → q.shape_ = some a →
      w.procs[k]? = some q := by
    intro k q a hk ha
    rcases (getElem?_push_iff _ _ _ _).mp hk with h1 | ⟨-, h2⟩
    · exact h1
    · rw [h2] at ha
      exact absurd ha (by simp [Process.default])
  constructor
  · intro i p a hi ha
    exact hw.live i p a (hold i p a hi ha) ha
  · intro i j p q a hi hj ha hb
    exact hw.uniq i j p q a (hold i p a hi ha) (hold j q a hj hb) ha hb
  · exact hw.clientLive
  · intro a hac i p hi hpa
    exact hw.clientSep a hac i p (hold i p a hi hpa) hpa

theorem World.set_rate_WF (P : Ptr → List ℚ → Prop) (w w1 : World) (i : Nat) (rate : ℚ)
    (hw : w.WF P) (hstep : w.set_rate i rate = some w1) : w1.WF P := by
  unfold World.set_rate at hstep
  cases hp : w.procs[i]? with
  | none => simp [hp] at hstep
  | some p0 =>
    simp only [hp, Option.bind_eq_bind, Option.some_bind, Option.some.injEq] at hstep
    subst hstep
    have hold : ∀ (k : Nat) (q : Process), (w.procs.set i (p0.set_rate rate))[k]? = some q →
        ∃ q0, w.procs[k]? = some q0 ∧ q0.shape_ = q.shape_ := by
      intro k q hk
      rcases (getElem?_set_iff _ _ _ p0 _ _ hp).mp hk with ⟨h1, h2⟩ | ⟨-, h2⟩
      · subst h1
        exact ⟨p0, hp, by rw [h2]; rfl⟩
      · exact ⟨q, h2, rfl⟩
    constructor
    · intro k p a hk ha
      obtain ⟨q0, hq0, hsh⟩ := hold k p hk
      exact hw.live k q0 a hq0 (hsh.trans ha)
    · intro k j p q a hk hj ha hb
      obtain ⟨p0, hp0, hsh⟩ := hold k p hk
      obtain ⟨q0, hq0, hsh2⟩ := hold j q hj
      exact hw.uniq k j p0 q0 a hp0 hq0 (hsh.trans ha) (hsh2.trans hb)
    · exact hw.clientLive
    · intro a hac k p hk hpa
      obtain ⟨q0, hq0, hsh⟩ := hold k p hk
      exact hw.clientSep a hac k q0 hq0 (hsh.trans hpa)


theorem getElem?_swap {α : Type} (l : List α) (i j k : Nat) (pi pj q : α)
    (hi : l[i]? = some pi) (hj : l[j]? = some pj)
    (hk : ((l.set i pj).set j pi)[k]? = some q) :
    l[if k = j then i else if k = i then j else k]? = some q := by
  have hj2 : ∃ y, (l.set i pj)[j]? = some y := by
    by_cases hji : j = i
    · exact ⟨pj, (getElem?_set_iff l i j pi pj pj hi).mpr (Or.inl ⟨hji, rfl⟩)⟩
    · exact ⟨pj, (getElem?_set_iff l i j pi pj pj hi).mpr (Or.inr ⟨hji, hj⟩)⟩
  obtain ⟨y, hy⟩ := hj2
  rcases (getElem?_set_iff _ j k y pi q hy).mp hk with ⟨h1, h2⟩ | ⟨h1, h2⟩
  · rw [if_pos h1, h2]
    exact hi
  · rw [if_neg h1]
    rcases (getElem?_set_iff l i k pi pj q hi).mp h2 with ⟨h3, h4⟩ | ⟨h3, h4⟩
    · rw [if_pos h3, h4]
      exact hj
    · rw [if_neg h3]
      exact h4

theorem swapIndex_inj (i j k l : Nat)
    (h : (if k = j then i else if k = i then j else k)
      = (if l = j then i else if l = i then j else l)) : k = l := by
  split_ifs at h <;> omega

theorem World.swap_WF (P : Ptr → List ℚ → Prop) (w w1 : World) (i j : Nat)
    (hw : w.WF P) (hstep : w.swap i j = some w1) : w1.WF P := by
  unfold World.swap at hstep
  cases hi : w.procs[i]? with
  | none => simp [hi] at hstep
  | some pi =>
    cases hj : w.procs[j]? with
    | none => simp [hi, hj] at hstep
    | some pj =>
      simp only [hi, hj, Option.bind_eq_bind, Option.some_bind, swap_eq,
        Option.some.injEq] at hstep
      subst hstep
      constructor
      · intro k p a hk ha
        exact hw.live _ p a (getElem?_swap _ i j k pi pj p hi hj hk) ha
      · intro k l p q a hk hl ha hb
        exact swapIndex_inj i j k l
          (hw.uniq _ _ p q a (getElem?_swap _ i j k pi pj p hi hj hk)
            (getElem?_swap _ i j l pi pj q hi hj hl) ha hb)
      · exact hw.clientLive
      · intro a hac k p hk hpa
        exact hw.clientSep a hac _ p (getElem?_swap _ i j k pi pj p hi hj hk) hpa

theorem World.moveConstruct_WF (P : Ptr → List ℚ → Prop) (w w1 : World) (i : Nat)
    (hw : w.WF P) (hstep : w.moveConstruct i = some w1) : w1.WF P := by
  unfold World.moveConstruct at hstep
  cases h1 : w.construct with
  | none => simp [h1] at hstep
  | some w0 =>
    simp only [h1, Option.bind_eq_bind, Option.some_bind] at hstep
    exact World.swap_WF P w0 w1 _ _ (World.construct_WF P w w0 hw h1) hstep


theorem toOption_eq_some {ε α : Type} (e : Except ε α) (x : α) :
    e.toOption = some x ↔ e = .ok x := by
  cases e <;> simp [Except.toOption]

theorem resetFrom_frame (H H1 : Heap) (o : Option Ptr) (hr : resetFrom H o = .ok H1) :
    ∀ b, o ≠ some b → H1.get? b = H.get? b := by
  intro b hb
  cases o with
  | none =>
    simp only [resetFrom, Except.ok.injEq] at hr
    rw [hr]
  | some a =>
    simp only [resetFrom, Heap.free] at hr
    cases hg : H.get? a with
    | none => simp [hg] at hr
    | some x =>
      simp only [hg, Except.ok.injEq] at hr
      subst hr
      have hab : a ≠ b := fun e => hb (by rw [e])
      unfold Heap.get?
      rw [List.getD_eq_getElem?_getD, List.getD_eq_getElem?_getD, List.getElem?_set_ne hab]

theorem World.destroyLast_WF (P : Ptr → List ℚ → Prop) (w w1 : World)
    (hw : w.WF P) (hstep : w.destroyLast = some w1) : w1.WF P := by
  simp only [World.destroyLast, Option.bind_eq_bind, Option.bind_eq_some, toOption_eq_some,
    Option.some.injEq] at hstep
  obtain ⟨p, hlast, H, hdestroy, hw1⟩ := hstep
  subst hw1
  rw [List.getLast?_eq_getElem?] at hlast
  have hframe := resetFrom_frame w.heap H p.shape_ hdestroy
  have hold : ∀ (k : Nat) (q : Process), w.procs.dropLast[k]? = some q →
      w.procs[k]? = some q ∧ k ≠ w.procs.length - 1 := by
    intro k q hk
    rw [List.getElem?_dropLast] at hk
    by_cases hlt : k < w.procs.length - 1
    · rw [if_pos hlt] at hk
      exact ⟨hk, Nat.ne_of_lt hlt⟩
    · rw [if_neg hlt] at hk
      simp at hk
  have hkeep : ∀ (k : Nat) (q : Process) (a : Ptr), w.procs.dropLast[k]? = some q →
      q.shape_ = some a → H.get? a = w.heap.get? a := by
    intro k q a hk ha
    obtain ⟨hq, hne⟩ := hold k q hk
    apply hframe
    intro hpa
    exact hne (hw.uniq _ _ q p a hq hlast ha hpa)
  constructor
  · intro k q a hk ha
    rw [hkeep k q a hk ha]
    exact hw.live k q a (hold k q hk).1 ha
  · intro k l p2 q a hk hl ha hb
    exact hw.uniq k l p2 q a (hold k p2 hk).1 (hold l q hl).1 ha hb
  · intro a hac
    rw [hframe a (hw.clientSep a hac _ p hlast)]
    exact hw.clientLive a hac
  · intro a hac k q hk
    exact hw.clientSep a hac k q (hold k q hk).1

theorem World.newHist_WF (P : Ptr → List ℚ → Prop) (w w1 : World) (h : TH1)
    (hw : w.WF P) (hstep : w.newHist h = some w1) : w1.WF P := by
  simp only [World.newHist, Option.some.injEq] at hstep
  subst hstep
  have hkeep : ∀ (a : Ptr) (s : TH1), w.heap.get? a = some s →
      (w.heap.alloc h).1.get? a = some s := by
    intro a s hs
    rw [Heap.get?_alloc_other w.heap h a (Nat.ne_of_lt (Heap.lt_of_get? _ a s hs)), hs]
  constructor
  · intro k q a hk ha
    obtain ⟨s, hs, hPs⟩ := hw.live k q a hk ha
    exact ⟨s, hkeep a s hs, hPs⟩
  · exact hw.uniq
  · intro a hac
    rcases List.mem_cons.mp hac with h1 | h1
    · rw [h1]
      exact ⟨h, Heap.get?_alloc_fresh w.heap h⟩
    · obtain ⟨s, hs⟩ := hw.clientLive a h1
      exact ⟨s, hkeep a s hs⟩
  · intro a hac k q hk hqa
    rcases List.mem_cons.mp hac with h1 | h1
    · obtain ⟨s, hs, -⟩ := hw.live k q a hk hqa
      rw [h1] at hs
      exact absurd (Heap.lt_of_get? _ _ s hs) (lt_irrefl _)
    · exact hw.clientSep a h1 k q hk hqa

theorem arrowMut_ok (H H1 : Heap) (a : Ptr) (f : TH1 → TH1)
    (hr : arrowMut H (some a) f = .ok H1) : ∃ s, H.get? a = some s ∧ H1 = H.write a (f s) := by
  simp only [arrowMut, Heap.read] at hr
  cases hg : H.get? a with
  | none => simp [hg, Except.map] at hr
  | some s =>
    simp only [hg, Except.map, Except.ok.injEq] at hr
    exact ⟨s, rfl, hr.symm⟩

theorem World.SetBinContent_WF (P : Ptr → List ℚ → Prop) (w w1 : World) (a : Ptr) (i : Nat)
    (content : ℚ) (hw : w.WF P) (hstep : w.SetBinContent a i content = some w1) :
    w1.WF P := by
  unfold World.SetBinContent at hstep
  by_cases hac : a ∈ w.client
  · simp only [hac, if_true, Option.bind_eq_bind, Option.bind_eq_some, toOption_eq_some,
      Option.some.injEq] at hstep
    obtain ⟨H, hmut, hw1⟩ := hstep
    subst hw1
    obtain ⟨s, hs, hH⟩ := arrowMut_ok _ _ _ _ hmut
    subst hH
    constructor
    · intro k q b hk hb
      have hne : b ≠ a := fun e => hw.clientSep a hac k q hk (by rw [hb, e])
      simp only
      rw [Heap.get?_write_other _ _ _ _ hne]
      exact hw.live k q b hk hb
    · exact hw.uniq
    · intro b hbc
      by_cases hba : b = a
      · rw [hba]
        exact ⟨_, Heap.get?_write_same _ _ s _ hs⟩
      · simp only
        rw [Heap.get?_write_other _ _ _ _ hba]
        exact hw.clientLive b hbc
    · exact hw.clientSep
  · simp [hac] at hstep

theorem World.copyConstruct_WF (P : Ptr → List ℚ → Prop) (w w1 : World) (i : Nat)
    (hclone : ∀ (b : Ptr) (bins : List ℚ), P b bins → P w.heap.cells.length bins)
    (hw : w.WF P) (hstep : w.copyConstruct i = some w1) : w1.WF P := by
  simp only [World.copyConstruct, Option.bind_eq_bind, Option.bind_eq_some, toOption_eq_some,
    Option.some.injEq, Prod.exists] at hstep
  obtain ⟨p, hp, H, q, hcopy, hw1⟩ := hstep
  subst hw1
  have hown : p.owns w.heap = true := by
    cases hs : p.shape_ with
    | none => simp [owns, hs]
    | some a =>
      obtain ⟨s, hs2, -⟩ := hw.live i p a hp hs
      simp [owns, hs, hs2]
  obtain ⟨H1, tmp, hcopy1, htmp, hnone, hsome, hframe⟩ := copyCtor_spec w.heap p hown
  rw [hcopy] at hcopy1
  obtain ⟨hH, hq⟩ := Prod.mk.inj (Except.ok.inj hcopy1)
  subst hH
  subst hq
  have hkeep : ∀ (a : Ptr) (s : TH1), w.heap.get? a = some s → H.get? a = some s := by
    intro a s hs
    rw [hframe a (Nat.ne_of_lt (Heap.lt_of_get? _ a s hs)), hs]
  have hnew : ∀ a : Ptr, q.shape_ = some a →
      a = w.heap.cells.length ∧ ∃ s, H.get? a = some s ∧ P a s.bins := by
    intro a ha
    cases hs : p.shape_ with
    | none =>
      rw [(hnone hs).1] at ha
      simp at ha
    | some b =>
      obtain ⟨hq1, h0, hh0, hfresh⟩ := hsome b hs
      rw [hq1] at ha
      have hab : w.heap.cells.length = a := by simpa using ha
      subst hab
      obtain ⟨s, hs2, hPs⟩ := hw.live i p b hp hs
      rw [hh0] at hs2
      have h0s : h0 = s := by simpa using hs2
      subst h0s
      exact ⟨rfl, _, hfresh, hclone b _ hPs⟩
  have hfreshOld : ∀ (k : Nat) (r : Process), w.procs[k]? = some r →
      r.shape_ ≠ some w.heap.cells.length := by
    intro k r hk hr
    obtain ⟨s, hs, -⟩ := hw.live k r _ hk hr
    exact absurd (Heap.lt_of_get? _ _ s hs) (lt_irrefl _)
  constructor
  · intro k r a hk ha
    rcases (getElem?_push_iff _ _ _ _).mp hk with h1 | ⟨-, h2⟩
    · obtain ⟨s, hs, hPs⟩ := hw.live k r a h1 ha
      exact ⟨s, hkeep a s hs, hPs⟩
    · subst h2
      exact (hnew a ha).2
  · intro k l r t a hk hl ha hb
    rcases (getElem?_push_iff _ _ _ _).mp hk with h1 | ⟨h1, h2⟩
    · rcases (getElem?_push_iff _ _ _ _).mp hl with h3 | ⟨h3, h4⟩
      · exact hw.uniq k l r t a h1 h3 ha hb
      · subst h4
        rw [(hnew a hb).1] at ha
        exact absurd ha (hfreshOld k r h1)
    · rcases (getElem?_push_iff _ _ _ _).mp hl with h3 | ⟨h3, h4⟩
      · subst h2
        rw [(hnew a ha).1] at hb
        exact absurd hb (hfreshOld l t h3)
      · rw [h1, h3]
  · intro a hac
    obtain ⟨s, hs⟩ := hw.clientLive a hac
    exact ⟨s, hkeep a s hs⟩
  · intro a hac k r hk hra
    rcases (getElem?_push_iff _ _ _ _).mp hk with h1 | ⟨-, h2⟩
    · exact hw.clientSep a hac k r h1 hra
    · subst h2
      obtain ⟨s, hs⟩ := hw.clientLive a hac
      rw [(hnew a hra).1] at hs
      exact absurd (Heap.lt_of_get? _ _ s hs) (lt_irrefl _)

theorem World.copyAssign_WF (P : Ptr → List ℚ → Prop) (w w1 : World) (i j : Nat)
    (hcopy : ∀ (b : Ptr) (bins : List ℚ), P b bins → P w.heap.cells.length bins)
    (hw : w.WF P) (hstep : w.copyAssign i j = some w1) : w1.WF P := by
  simp only [World.copyAssign, Option.bind_eq_bind, Option.bind_eq_some] at hstep
  obtain ⟨wa, h1, wb, h2, h3⟩ := hstep
  exact World.destroyLast_WF P wb w1
    (World.swap_WF P wa wb _ _ (World.copyConstruct_WF P w wa j hcopy hw h1) h2) h3

theorem World.moveAssign_WF (P : Ptr → List ℚ → Prop) (w w1 : World) (i j : Nat)
    (hw : w.WF P) (hstep : w.moveAssign i j = some w1) : w1.WF P := by
  simp only [World.moveAssign, Option.bind_eq_bind, Option.bind_eq_some] at hstep
  obtain ⟨wa, h1, wb, h2, h3⟩ := hstep
  exact World.destroyLast_WF P wb w1
    (World.swap_WF P wa wb _ _ (World.moveConstruct_WF P w wa j hw h1) h2) h3

theorem World.WF_heapMono (P : Ptr → List ℚ → Prop) (w : World) (H : Heap) (hw : w.WF P)
    (hmono : ∀ (a : Ptr) (s : TH1), w.heap.get? a = some s → H.get? a = some s) :
    World.WF P { w with heap := H } := by
  constructor
  · intro k q a hk ha
    obtain ⟨s, hs, hPs⟩ := hw.live k q a hk ha
    exact ⟨s, hmono a s hs, hPs⟩
  · exact hw.uniq
  · intro a hac
    obtain ⟨s, hs⟩ := hw.clientLive a hac
    exact ⟨s, hmono a s hs⟩
  · exact hw.clientSep

theorem World.WF_addClient (P : Ptr → List ℚ → Prop) (w : World) (H : Heap) (c : TH1)
    (hw : w.WF P)
    (hmono : ∀ (a : Ptr) (s : TH1), w.heap.get? a = some s → H.get? a = some s)
    (hfresh : H.get? w.heap.cells.length = some c) :
    World.WF P { w with heap := H, client := w.heap.cells.length :: w.client } := by
  constructor
  · intro k q a hk ha
    obtain ⟨s, hs, hPs⟩ := hw.live k q a hk ha
    exact ⟨s, hmono a s hs, hPs⟩
  · exact hw.uniq
  · intro a hac
    rcases List.mem_cons.mp hac with h1 | h1
    · rw [h1]
      exact ⟨c, hfresh⟩
    · obtain ⟨s, hs⟩ := hw.clientLive a h1
      exact ⟨s, hmono a s hs⟩
  · intro a hac k q hk hqa
    rcases List.mem_cons.mp hac with h1 | h1
    · obtain ⟨s, hs, -⟩ := hw.live k q a hk hqa
      rw [h1] at hs
      exact absurd (Heap.lt_of_get? _ _ s hs) (lt_irrefl _)
    · exact hw.clientSep a h1 k q hk hqa

theorem World.ClonedShape_WF (P : Ptr → List ℚ → Prop) (w w1 : World) (i : Nat)
    (hw : w.WF P) (hstep : w.ClonedShape i = some w1) : w1.WF P := by
  simp only [World.ClonedShape, Option.bind_eq_bind, Option.bind_eq_some, toOption_eq_some,
    Option.some.injEq, Prod.exists] at hstep
  obtain ⟨p, hp, H, res, hclone, hw1⟩ := hstep
  subst hw1
  cases hs : p.shape_ with
  | none =>
    simp only [Process.ClonedShape, hs, pure, Except.pure, Except.ok.injEq,
      Prod.mk.injEq] at hclone
    obtain ⟨hH, hres⟩ := hclone
    subst hH
    subst hres
    exact hw
  | some q =>
    obtain ⟨s, hs2, -⟩ := hw.live i p q hp hs
    obtain ⟨H1, hclone1, hfresh, hframe, -⟩ := ClonedShape_some w.heap p q s hs hs2
    rw [hclone] at hclone1
    obtain ⟨hH, hres⟩ := Prod.mk.inj (Except.ok.inj hclone1)
    subst hH
    subst hres
    refine World.WF_addClient P w H _ hw ?_ hfresh
    intro a t ht
    rw [hframe a (Nat.ne_of_lt (Heap.lt_of_get? _ a t ht)), ht]

theorem World.ClonedScaledShape_WF (P : Ptr → List ℚ → Prop) (no_norm_rate : Process → ℚ)
    (w w1 : World) (i : Nat) (hw : w.WF P)
    (hstep : w.ClonedScaledShape no_norm_rate i = some w1) : w1.WF P := by
  simp only [World.ClonedScaledShape, Option.bind_eq_bind, Option.bind_eq_some,
    toOption_eq_some, Option.some.injEq, Prod.exists] at hstep
  obtain ⟨p, hp, H, res, hclone, hw1⟩ := hstep
  subst hw1
  cases hs : p.shape_ with
  | none =>
    simp only [Process.ClonedScaledShape, hs, pure, Except.pure, Except.ok.injEq,
      Prod.mk.injEq] at hclone
    obtain ⟨hH, hres⟩ := hclone
    subst hH
    subst hres
    exact hw
  | some q =>
    obtain ⟨s, hs2, -⟩ := hw.live i p q hp hs
    obtain ⟨H1, hclone1, hfresh, hframe, -⟩ :=
      ClonedScaledShape_some no_norm_rate w.heap p q s hs hs2
    rw [hclone] at hclone1
    obtain ⟨hH, hres⟩ := Prod.mk.inj (Except.ok.inj hclone1)
    subst hH
    subst hres
    refine World.WF_addClient P w H _ hw ?_ hfresh
    intro a t ht
    rw [hframe a (Nat.ne_of_lt (Heap.lt_of_get? _ a t ht)), ht]

theorem ShapeAsTH1F_mono (datasets : Nat → Option RooAbsData) (H H1 : Heap) (p : Process)
    (r : TH1) (hrun : p.ShapeAsTH1F datasets H = .ok (H1, r)) :
    ∀ (a : Ptr) (s : TH1), H.get? a = some s → H1.get? a = some s := by
  intro b s hb
  by_cases hnull : p.shape_ = none ∧ p.data_ = none
  · simp [ShapeAsTH1F, hnull.1, hnull.2] at hrun
  cases hs : p.shape_ with
  | some a =>
    cases hg : H.get? a with
    | none =>
      simp [ShapeAsTH1F, hs, Process.shape, dynamic_cast, Heap.read, hg, Except.map,
        bind, Except.bind] at hrun
    | some h =>
      unfold ShapeAsTH1F at hrun
      simp only [hs, Process.shape, dynamic_cast_some H a h _ hg, bind, Except.bind] at hrun
      cases hk : h.kind <;>
        simp [hk, arrow_some H a h _ hg, pure, Except.pure] at hrun
      · rw [← hrun.1]
        exact hb
      · rw [← hrun.1]
        exact hb
  | none =>
    cases hd : p.data_ with
    | none => exact absurd ⟨hs, hd⟩ hnull
    | some k =>
      unfold ShapeAsTH1F at hrun
      simp only [hs, hd, Process.shape, Process.data, derefData] at hrun
      cases hk : datasets k with
      | none => simp [hk, bind, Except.bind] at hrun
      | some ds =>
        have hfresh := Heap.get?_alloc_fresh H (ds.createHistogram ds.primaryVariableName)
        obtain ⟨H2, hfree, hkeep, -⟩ := Heap.free_some _ _ _ hfresh
        have hmono : H2.get? b = some s := by
          have hne : b ≠ (H.alloc (ds.createHistogram ds.primaryVariableName)).2 :=
            Nat.ne_of_lt (Heap.lt_of_get? H b s hb)
          rw [hkeep b hne, Heap.get?_alloc_other H _ b hne, hb]
        simp only [hk, bind, Except.bind, Option.isNone_none, Option.isNone_some,
          Option.isSome_none, Option.isSome_some, Bool.and_false, Bool.false_eq_true,
          if_false, if_true] at hrun
        rw [dynamic_cast_some _ _ _ _ hfresh] at hrun
        by_cases hkind : (ds.createHistogram ds.primaryVariableName).kind = .TH1F
        · simp only [hkind, if_true, arrow_some _ _ _ _ hfresh, deletePtr, hfree] at hrun
          split at hrun
          · rename_i hpos
            simp [divide, ne_of_gt hpos, pure, Except.pure] at hrun
            rw [← hrun.1]
            exact hmono
          · simp [pure, Except.pure] at hrun
            rw [← hrun.1]
            exact hmono
        · simp [hkind, arrow] at hrun

theorem World.ShapeAsTH1F_WF (P : Ptr → List ℚ → Prop) (datasets : Nat → Option RooAbsData)
    (w w1 : World) (i : Nat) (hw : w.WF P)
    (hstep : w.ShapeAsTH1F datasets i = some w1) : w1.WF P := by
  simp only [World.ShapeAsTH1F, Option.bind_eq_bind, Option.bind_eq_some,
    toOption_eq_some, Option.some.injEq, Prod.exists] at hstep
  obtain ⟨p, -, H, r, hrun, hw1⟩ := hstep
  subst hw1
  exact World.WF_heapMono P w H hw (ShapeAsTH1F_mono datasets w.heap H p r hrun)

theorem sum_nonpos_all_zero (l : List ℚ) (hnn : ∀ x ∈ l, 0 ≤ x) (hsum : l.sum ≤ 0) :
    ∀ x ∈ l, x = 0 := by
  induction l with
  | nil =>
    intro x hx
    simp at hx
  | cons a t ih =>
    have ha : 0 ≤ a := hnn a (List.mem_cons_self a t)
    have ht : ∀ x ∈ t, 0 ≤ x := fun x hx => hnn x (List.mem_cons_of_mem a hx)
    have hts : 0 ≤ t.sum := List.sum_nonneg ht
    rw [List.sum_cons] at hsum
    have ha0 : a = 0 := by linarith
    have hts0 : t.sum ≤ 0 := by linarith
    intro x hx
    rcases List.mem_cons.mp hx with h1 | h1
    · rw [h1, ha0]
    · exact ih ht hts0 x h1

theorem set_shape_none_ok (H H1 : Heap) (p p1 : Process) (set_rate : Bool)
    (hrun : p.set_shape H none set_rate = .ok (H1, p1)) :
    resetFrom H p.shape_ = .ok H1 ∧ p1 = { p with shape_ := none } := by
  unfold Process.set_shape at hrun
  cases hr : resetFrom H p.shape_ with
  | error e => simp [hr, bind, Except.bind] at hrun
  | ok H2 =>
    simp only [hr, bind, Except.bind, pure, Except.pure, Except.ok.injEq, Prod.mk.injEq] at hrun
    rw [hrun.1, ← hrun.2]
    exact ⟨rfl, rfl⟩

theorem World.set_shape_WF (w w1 : World) (i : Nat) (shape : Option Ptr) (set_rate : Bool)
    (hw : w.WF (fun _ => unitOrZero)) (hstep : w.set_shape i shape set_rate = some w1) :
    w1.WF (fun _ => unitOrZero) := by
  unfold World.set_shape at hstep
  cases hp : w.procs[i]? with
  | none => simp [hp] at hstep
  | some p =>
    by_cases hadm : w.admissible shape = true
    · simp only [hp, hadm, if_true, Option.bind_eq_bind, Option.some_bind, Option.bind_eq_some,
        toOption_eq_some, Option.some.injEq, Prod.exists] at hstep
      obtain ⟨H, p1, hrun, hw1⟩ := hstep
      subst hw1
      cases shape with
      | none =>
        obtain ⟨hreset, hp1⟩ := set_shape_none_ok _ _ _ _ _ hrun
        subst hp1
        have hframe := resetFrom_frame w.heap H p.shape_ hreset
        have hold : ∀ (k : Nat) (q : Process) (a : Ptr),
            (w.procs.set i { p with shape_ := none })[k]? = some q → q.shape_ = some a →
            w.procs[k]? = some q ∧ k ≠ i := by
          intro k q a hk ha
          rcases (getElem?_set_iff _ _ _ p _ _ hp).mp hk with ⟨-, h2⟩ | ⟨h1, h2⟩
          · rw [h2] at ha
            simp at ha
          · exact ⟨h2, h1⟩
        have hkeep : ∀ (k : Nat) (q : Process) (a : Ptr), w.procs[k]? = some q → k ≠ i →
            q.shape_ = some a → H.get? a = w.heap.get? a := by
          intro k q a hk hki ha
          apply hframe
          intro hpa
          exact hki (hw.uniq k i q p a hk hp ha hpa)
        constructor
        · intro k q a hk ha
          obtain ⟨hq, hki⟩ := hold k q a hk ha
          rw [hkeep k q a hq hki ha]
          exact hw.live k q a hq ha
        · intro k l q t a hk hl ha hb
          exact hw.uniq k l q t a (hold k q a hk ha).1 (hold l t a hl hb).1 ha hb
        · intro a hac
          have hac2 : a ∈ w.client := (List.mem_filter.mp hac).1
          rw [hframe a (hw.clientSep a hac2 i p hp)]
          exact hw.clientLive a hac2
        · intro a hac k q hk hqa
          exact hw.clientSep a (List.mem_filter.mp hac).1 k q (hold k q a hk hqa).1 hqa
      | some ptr =>
        simp only [World.admissible, Bool.and_eq_true, decide_eq_true_eq] at hadm
        obtain ⟨hpc, hbins⟩ := hadm
        cases hg : w.heap.get? ptr with
        | none => simp [hg] at hbins
        | some h =>
          simp only [hg, List.all_eq_true, decide_eq_true_eq] at hbins
          have hown : p.owns w.heap = true := by
            cases hs : p.shape_ with
            | none => simp [owns, hs]
            | some a =>
              obtain ⟨s, hs2, -⟩ := hw.live i p a hp hs
              simp [owns, hs, hs2]
          have hne : p.shape_ ≠ some ptr := hw.clientSep ptr hpc i p hp
          obtain ⟨H1, hrun1, hget, hframe⟩ :=
            set_shape_some w.heap p ptr h set_rate hown hg hne
          rw [hrun] at hrun1
          obtain ⟨hH, hp1⟩ := Prod.mk.inj (Except.ok.inj hrun1)
          subst hH
          subst hp1
          have hgood : unitOrZero (if 0 < h.Integral then
              (h.SetDirectory none).Scale (1 / h.Integral) else h.SetDirectory none).bins := by
            by_cases hpos : 0 < h.Integral
            · rw [if_pos hpos]
              left
              have hI := TH1.Integral_Scale (h.SetDirectory none) (1 / h.Integral)
              rw [show (h.SetDirectory none).Integral = h.Integral from rfl,
                one_div_mul_cancel (ne_of_gt hpos)] at hI
              exact hI
            · rw [if_neg hpos]
              right
              exact sum_nonpos_all_zero h.bins hbins (not_lt.mp hpos)
          have hold : ∀ (k : Nat) (q : Process) (a : Ptr),
              (w.procs.set i { p with shape_ := some ptr,
                                      rate_ := if set_rate = true then h.Integral
                                               else p.rate_ })[k]? = some q →
              q.shape_ = some a →
              (k = i ∧ a = ptr) ∨ (k ≠ i ∧ w.procs[k]? = some q ∧ a ≠ ptr) := by
            intro k q a hk ha
            rcases (getElem?_set_iff _ _ _ p _ _ hp).mp hk with ⟨h1, h2⟩ | ⟨h1, h2⟩
            · rw [h2] at ha
              left
              exact ⟨h1, by simpa using ha.symm⟩
            · right
              refine ⟨h1, h2, ?_⟩
              intro hap
              exact hw.clientSep ptr hpc k q h2 (by rw [ha, hap])
          have hkeep : ∀ (k : Nat) (q : Process) (a : Ptr), w.procs[k]? = some q → k ≠ i →
              q.shape_ = some a → a ≠ ptr → H.get? a = w.heap.get? a := by
            intro k q a hk hki ha hap
            apply hframe a hap
            intro hpa
            exact hki (hw.uniq k i q p a hk hp ha hpa)
          constructor
          · intro k q a hk ha
            rcases hold k q a hk ha with ⟨-, h2⟩ | ⟨h1, h2, h3⟩
            · rw [h2]
              exact ⟨_, hget, hgood⟩
            · rw [hkeep k q a h2 h1 ha h3]
              exact hw.live k q a h2 ha
          · intro k l q t a hk hl ha hb
            rcases hold k q a hk ha with ⟨h1, h2⟩ | ⟨h1, h2, h3⟩
            · rcases hold l t a hl hb with ⟨h4, -⟩ | ⟨-, -, h6⟩
              · rw [h1, h4]
              · exact absurd h2 h6
            · rcases hold l t a hl hb with ⟨-, h5⟩ | ⟨-, h5, -⟩
              · exact absurd h5 h3
              · exact hw.uniq k l q t a h2 h5 ha hb
          · intro a hac
            obtain ⟨hac2, hne2⟩ := List.mem_filter.mp hac
            have hap : a ≠ ptr := by
              intro e
              rw [e] at hne2
              simp at hne2
            rw [hframe a hap (hw.clientSep a hac2 i p hp)]
            exact hw.clientLive a hac2
          · intro a hac k q hk hqa
            obtain ⟨hac2, hne2⟩ := List.mem_filter.mp hac
            rcases hold k q a hk hqa with ⟨-, h2⟩ | ⟨-, h2, -⟩
            · rw [h2] at hne2
              simp at hne2
            · exact hw.clientSep a hac2 k q h2 hqa
    · simp [hp, hadm] at hstep


set_option maxHeartbeats 4000000 in
/-- The client program `program` runs without error and ends in `programEnd`. -/
theorem program_run :
    World.run (fun p => p.rate_) datasetsX World.init program = some programEnd := by
  norm_num [World.run, World.step, World.construct, World.newHist, World.set_shape, World.init,
    World.admissible, World.copyConstruct, World.ClonedScaledShape, World.ClonedShape,
    World.moveConstruct, World.copyAssign, World.moveAssign, World.swap, World.destroyLast,
    World.ShapeAsTH1F, World.set_rate, World.SetBinContent, program, programEnd,
    Heap.alloc, Heap.get?, Heap.free, h224, Process.set_shape, Process.copyCtor,
    Process.ClonedShape, Process.ClonedScaledShape, Process.ShapeAsTH1F, Process.destroy,
    Process.shape, Process.data, Clone, dynamic_cast, TH1.Copy, TH1.TH1F_default,
    swap_eq, resetFrom, arrowMut, arrow,
    Heap.read, Heap.write, Except.map, Except.toOption, bind, Except.bind, pure, Except.pure,
    TH1.Integral, TH1.SetDirectory, TH1.Scale, TH1.SetBinContent, divide, Process.set_rate,
    Process.default, Option.some_ne_none]
theorem World.init_WF (P : Ptr → List ℚ → Prop) : World.init.WF P := by
  constructor
  · intro i p a hi
    simp [World.init] at hi
  · intro i j p q a hi
    simp [World.init] at hi
  · intro a ha
    simp [World.init] at ha
  · intro a ha
    simp [World.init] at ha

theorem World.WF_weaken (P Q : Ptr → List ℚ → Prop) (w : World) (hw : w.WF P)
    (hPQ : ∀ (i : Nat) (p : Process) (a : Ptr) (s : TH1), w.procs[i]? = some p →
      p.shape_ = some a → w.heap.get? a = some s → P a s.bins → Q a s.bins) : w.WF Q := by
  constructor
  · intro i p a hi ha
    obtain ⟨s, hs, hPs⟩ := hw.live i p a hi ha
    exact ⟨s, hs, hPQ i p a s hi ha hs hPs⟩
  · exact hw.uniq
  · exact hw.clientLive
  · exact hw.clientSep

theorem World.step_WF_any (P : Ptr → List ℚ → Prop) (no_norm_rate : Process → ℚ)
    (datasets : Nat → Option RooAbsData) (w w1 : World) (op : Op)
    (hop : ∀ i shape set_rate, op ≠ .set_shape i shape set_rate)
    (hcopy : ∀ (b : Ptr) (bins : List ℚ), P b bins → P w.heap.cells.length bins)
    (hw : w.WF P)
    (hstep : World.step no_norm_rate datasets w op = some w1) : w1.WF P := by
  cases op with
  | construct => exact World.construct_WF P w w1 hw hstep
  | destroyLast => exact World.destroyLast_WF P w w1 hw hstep
  | newHist h => exact World.newHist_WF P w w1 h hw hstep
  | SetBinContent a i content => exact World.SetBinContent_WF P w w1 a i content hw hstep
  | set_shape i shape set_rate => exact absurd rfl (hop i shape set_rate)
  | set_rate i rate => exact World.set_rate_WF P w w1 i rate hw hstep
  | copyConstruct i => exact World.copyConstruct_WF P w w1 i hcopy hw hstep
  | moveConstruct i => exact World.moveConstruct_WF P w w1 i hw hstep
  | copyAssign i j => exact World.copyAssign_WF P w w1 i j hcopy hw hstep
  | moveAssign i j => exact World.moveAssign_WF P w w1 i j hw hstep
  | swap i j => exact World.swap_WF P w w1 i j hw hstep
  | ClonedShape i => exact World.ClonedShape_WF P w w1 i hw hstep
  | ClonedScaledShape i => exact World.ClonedScaledShape_WF P no_norm_rate w w1 i hw hstep
  | ShapeAsTH1F i => exact World.ShapeAsTH1F_WF P datasets w w1 i hw hstep

theorem World.step_WF_unit (no_norm_rate : Process → ℚ)
    (datasets : Nat → Option RooAbsData) (w w1 : World) (op : Op) (hw : w.WF (fun _ => unitOrZero))
    (hstep : World.step no_norm_rate datasets w op = some w1) : w1.WF (fun _ => unitOrZero) := by
  by_cases hop : ∀ i shape set_rate, op ≠ .set_shape i shape set_rate
  · exact World.step_WF_any (fun _ => unitOrZero) no_norm_rate datasets w w1 op hop
      (fun _ _ h => h) hw hstep
  · simp only [not_forall, ne_eq, not_not] at hop
    obtain ⟨i, shape, set_rate, hop⟩ := hop
    subst hop
    exact World.set_shape_WF w w1 i shape set_rate hw hstep

theorem World.run_WF (no_norm_rate : Process → ℚ) (datasets : Nat → Option RooAbsData)
    (ops : List Op) (w w1 : World) (hw : w.WF (fun _ => unitOrZero))
    (hrun : World.run no_norm_rate datasets w ops = some w1) : w1.WF (fun _ => unitOrZero) := by
  induction ops generalizing w with
  | nil =>
    simp only [World.run, Option.some.injEq] at hrun
    rw [← hrun]
    exact hw
  | cons op ops ih =>
    simp only [World.run, Option.bind_eq_some] at hrun
    obtain ⟨w0, hstep, hrest⟩ := hrun
    exact ih w0 (World.step_WF_unit no_norm_rate datasets w w0 op hw hstep) hrest

/-! ## The invariant of the stored shapes -/

/-- C17: in every state a client program reaches from no object at all by
construction, destruction, `set_shape` (of null or of a histogram of its own
without a negative bin), `set_rate`, copy and move construction, copy and move
assignment, `swap`, `ClonedShape`, `ClonedScaledShape`, `ShapeAsTH1F` and writes
to bins of its own histograms, the shape of every process is null or a live
histogram that integrates to exactly 1 or has all bins zero.  An operation
other than `set_shape` leaves every process with a shape whose bins are those
of a shape stored before the operation, and a histogram that was stored before
and is stored after has the bins it had. -/
theorem reachable_shape_normalised (no_norm_rate : Process → ℚ)
    (datasets : Nat → Option RooAbsData) (ops : List Op) (w : World)
    (hrun : World.run no_norm_rate datasets World.init ops = some w) :
    (∀ p ∈ w.procs, p.shape_ = none ∨
      ∃ s, p.storedShape w.heap = some s ∧ (s.Integral = 1 ∨ ∀ x ∈ s.bins, x = 0)) ∧
    (∀ (op : Op) (w1 : World), (∀ i shape set_rate, op ≠ .set_shape i shape set_rate) →
      World.step no_norm_rate datasets w op = some w1 →
      ∀ p1 ∈ w1.procs, p1.shape_ = none ∨
        ∃ s1, p1.storedShape w1.heap = some s1 ∧
          (∃ p ∈ w.procs, ∃ s, p.storedShape w.heap = some s ∧ s1.bins = s.bins) ∧
          (∀ a s0, p1.shape_ = some a → w.heap.get? a = some s0 → s1.bins = s0.bins)) := by
  have hw : w.WF (fun _ => unitOrZero) :=
    World.run_WF no_norm_rate datasets ops World.init w (World.init_WF _) hrun
  constructor
  · intro p hp
    obtain ⟨i, hi⟩ := List.mem_iff_getElem?.mp hp
    cases hs : p.shape_ with
    | none => exact Or.inl rfl
    | some a =>
      obtain ⟨s, hs2, hgood⟩ := hw.live i p a hi hs
      exact Or.inr ⟨s, by simp [storedShape, hs, hs2], hgood⟩
  · intro op w1 hop hstep p1 hp1
    have hwP : w.WF (fun a bins =>
        (∃ p ∈ w.procs, ∃ s, p.storedShape w.heap = some s ∧ bins = s.bins) ∧
        (∀ s0, w.heap.get? a = some s0 → bins = s0.bins)) := by
      apply World.WF_weaken (fun _ => unitOrZero) _ w hw
      intro i p a s hi ha hs _
      refine ⟨⟨p, List.mem_iff_getElem?.mpr ⟨i, hi⟩, s, by simp [storedShape, ha, hs], rfl⟩, ?_⟩
      intro s0 hs0
      rw [hs] at hs0
      rw [Option.some.inj hs0]
    have hcopy : ∀ (b : Ptr) (bins : List ℚ),
        ((∃ p ∈ w.procs, ∃ s, p.storedShape w.heap = some s ∧ bins = s.bins) ∧
          (∀ s0, w.heap.get? b = some s0 → bins = s0.bins)) →
        ((∃ p ∈ w.procs, ∃ s, p.storedShape w.heap = some s ∧ bins = s.bins) ∧
          (∀ s0, w.heap.get? w.heap.cells.length = some s0 → bins = s0.bins)) := by
      intro b bins hb
      refine ⟨hb.1, ?_⟩
      intro s0 hs0
      exact absurd (Heap.lt_of_get? _ _ s0 hs0) (lt_irrefl _)
    have hw1 := World.step_WF_any _ no_norm_rate datasets w w1 op hop hcopy hwP hstep
    obtain ⟨i, hi⟩ := List.mem_iff_getElem?.mp hp1
    cases hs : p1.shape_ with
    | none => exact Or.inl rfl
    | some a =>
      obtain ⟨s1, hs1, hP1, hP2⟩ := hw1.live i p1 a hi hs
      refine Or.inr ⟨s1, by simp [storedShape, hs, hs1], hP1, ?_⟩
      intro a2 s0 ha2 hs0
      have haa : a = a2 := by simpa using ha2
      subst haa
      exact hP2 s0 hs0

/-- Witness of C17: the state the client program `program` ends in. -/
theorem reachable_shape_normalised_witness :
    World.run (fun p => p.rate_) datasetsX World.init program = some programEnd ∧
    ((∀ p ∈ programEnd.procs, p.shape_ = none ∨
      ∃ s, p.storedShape programEnd.heap = some s ∧
        (s.Integral = 1 ∨ ∀ x ∈ s.bins, x = 0)) ∧
    (∀ (op : Op) (w1 : World), (∀ i shape set_rate, op ≠ .set_shape i shape set_rate) →
      World.step (fun p => p.rate_) datasetsX programEnd op = some w1 →
      ∀ p1 ∈ w1.procs, p1.shape_ = none ∨
        ∃ s1, p1.storedShape w1.heap = some s1 ∧
          (∃ p ∈ programEnd.procs, ∃ s, p.storedShape programEnd.heap = some s ∧
            s1.bins = s.bins) ∧
          (∀ a s0, p1.shape_ = some a → programEnd.heap.get? a = some s0 →
            s1.bins = s0.bins))) :=
  ⟨program_run,
   reachable_shape_normalised (fun p => p.rate_) datasetsX program programEnd program_run⟩


end ch
